import Mathlib

/-!
# TLM-Generator: verified model of the worksheet conversion pipeline

A shallow embedding, over `List Char`, of the text-processing core of the
TLM-Generator repository: the question-boundary scanner and chunk planner
(`chunkWorksheet`), the generated-text cleaner (`removeDuplicateLines`),
the unicode/math text normalizer (`normalizeMathText`), the extraction
entry points (`extractText`), the LaTeX escaping engine
(`escapeLatexTextPreservingMath`), the pandoc sanitizer
(`sanitizeLatexForPandoc`), the chunked generation recursion
(`generateChunkWithRetries`), the chunk-output merger
(`mergeChunkOutputs`), and the job status state machine of
`processWorksheet`.

JavaScript strings are modelled as `List Char`; JavaScript regular
expression passes are modelled by explicit deterministic scanners (each
regex used by the source has no observable backtracking, as argued in the
comments next to each scanner).  Scanners that advance by more than one
character per step take an explicit fuel argument (always instantiated
with the input length by the wrapper, which is sufficient because every
step consumes at least one character); this keeps every definition
computable by the kernel.
-/

/-- Convert a string literal to the `List Char` representation used throughout. -/
def str (s : String) : List Char := s.toList

/-- The backquote character (code 96). -/
def btick : Char := Char.ofNat 96

/-- The apostrophe character (code 39). -/
def apos : Char := Char.ofNat 39

/-- JavaScript whitespace (the set matched by `\s` and stripped by
`String.prototype.trim`): tab, LF, VT, FF, CR, space, NBSP, Ogham space,
the en/em space block, LS, PS, narrow NBSP, MMSP, ideographic space, BOM. -/
def isJsSpace (c : Char) : Bool :=
  let n := c.toNat
  n = 0x9 ∨ n = 0xA ∨ n = 0xB ∨ n = 0xC ∨ n = 0xD ∨ n = 0x20 ∨ n = 0xA0 ∨
  n = 0x1680 ∨ (0x2000 ≤ n ∧ n ≤ 0x200A) ∨ n = 0x2028 ∨ n = 0x2029 ∨
  n = 0x202F ∨ n = 0x205F ∨ n = 0x3000 ∨ n = 0xFEFF

/-- ASCII digit, as matched by the JavaScript `\d` class. -/
def isDigitChar (c : Char) : Bool :=
  0x30 ≤ c.toNat ∧ c.toNat ≤ 0x39

/-- ASCII letter, as matched by `[a-zA-Z]`. -/
def isAsciiLetter (c : Char) : Bool :=
  (0x41 ≤ c.toNat ∧ c.toNat ≤ 0x5A) ∨ (0x61 ≤ c.toNat ∧ c.toNat ≤ 0x7A)

/-- ASCII alphanumeric, as matched by `[a-zA-Z0-9]`. -/
def isAsciiAlnum (c : Char) : Bool :=
  isAsciiLetter c ∨ isDigitChar c

/-- `startsWithSeq pat l` holds when `pat` is an initial segment of `l`. -/
def startsWithSeq : List Char → List Char → Bool
  | [], _ => true
  | _ :: _, [] => false
  | p :: ps, c :: cs => p = c ∧ startsWithSeq ps cs

/-- `l` ends with `pat`. -/
def endsWithSeq (pat l : List Char) : Bool :=
  startsWithSeq pat.reverse l.reverse

/-- Length of the longest prefix of `l` whose characters satisfy `p`. -/
def countWhile (p : Char → Bool) (l : List Char) : Nat :=
  (l.takeWhile p).length

/-- Concatenation of a list of lists (the JS `[].concat(...)` / flattening). -/
def concatAll : List (List α) → List α
  | [] => []
  | l :: ls => l ++ concatAll ls

/-- Map and concatenate; used to model character-wise regex replaces. -/
def cmap (f : α → List β) (l : List α) : List β :=
  concatAll (l.map f)

/-- `Array.prototype.join(sep)`: empty for `[]`, no trailing separator. -/
def interc (sep : List α) : List (List α) → List α
  | [] => []
  | [x] => x
  | x :: y :: ys => x ++ sep ++ interc sep (y :: ys)

/-- `String.prototype.trimStart`. -/
def trimLeft (s : List Char) : List Char :=
  s.dropWhile isJsSpace

/-- `String.prototype.trimEnd`. -/
def trimRight (s : List Char) : List Char :=
  (s.reverse.dropWhile isJsSpace).reverse

/-- `String.prototype.trim`. -/
def trim (s : List Char) : List Char :=
  trimRight (trimLeft s)

/-- `text.split(/\r?\n/)`: split on LF, consuming one immediately
preceding CR with the LF.  A lone CR is not a delimiter. -/
def splitCR : List Char → List (List Char)
  | [] => [[]]
  | '\n' :: rest => [] :: splitCR rest
  | '\r' :: '\n' :: rest => [] :: splitCR rest
  | c :: rest =>
    match splitCR rest with
    | l :: ls => (c :: l) :: ls
    | [] => [[c]]

/-- `text.split('\n')`: split on LF only. -/
def splitNL : List Char → List (List Char)
  | [] => [[]]
  | '\n' :: rest => [] :: splitNL rest
  | c :: rest =>
    match splitNL rest with
    | l :: ls => (c :: l) :: ls
    | [] => [[c]]

/-- `text.replace(/c/g, repl)` for a single-character pattern `c`: a global
single-character regex replace is exactly a character-wise substitution. -/
def replaceChar (t : Char) (repl : List Char) (s : List Char) : List Char :=
  cmap (fun c => if c = t then repl else [c]) s

/-- A deterministic left-to-right replacement engine.  `rule cs atLS`
inspects the text at the current position (`atLS`: the position is the
start of the string or preceded by a newline, i.e. a `^` position under
the `m` flag) and returns `some (n, out)` to replace the next `n ≥ 1`
characters by `out`, or `none` to copy one character.  This models a
global regex replace whose pattern admits no observable backtracking:
scanning advances one character after a failed position, and after a
match resumes right after the consumed text, exactly as `lastIndex` does. -/
def scanReplF (rule : List Char → Bool → Option (Nat × List Char)) :
    Nat → List Char → Bool → List Char
  | 0, cs, _ => cs
  | _ + 1, [], _ => []
  | fuel + 1, c :: rest, atLS =>
    match rule (c :: rest) atLS with
    | some (n, out) =>
      let consumed := (c :: rest).take n
      out ++ scanReplF rule fuel ((c :: rest).drop n)
        (consumed.getLast? = some '\n')
    | none => c :: scanReplF rule fuel rest (c = '\n')

/-- Run a replacement rule over a whole string (fuel = length suffices
because every step consumes at least one character). -/
def scanRepl (rule : List Char → Bool → Option (Nat × List Char))
    (s : List Char) : List Char :=
  scanReplF rule s.length s true

/-- `text.replace(pat, repl)` for a literal (regex-metacharacter-free)
pattern with the `g` flag, `pat ≠ []`. -/
def replaceLit (pat repl : List Char) (s : List Char) : List Char :=
  scanRepl (fun cs _ => if startsWithSeq pat cs then some (pat.length, repl) else none) s

/-- Index of the first occurrence of `pat` (as a contiguous sub-sequence)
in `l`, if any. -/
def findSeqIdx (pat : List Char) : List Char → Option Nat
  | [] => if startsWithSeq pat [] then some 0 else none
  | c :: rest =>
    if startsWithSeq pat (c :: rest) then some 0
    else (findSeqIdx pat rest).map (· + 1)

/-! ## Question-boundary scanner and chunk planner
(`src/backend/services/latexGenerator.js`)

The boundary regex is `/(^|\n)\s*(?:Q\s*)?(\d+)[\.\)]\s+/gi`.  Without the
`m` flag, `^` matches only at position 0.  The pattern after `(^|\n)` is
deterministic: each `\s*` is followed by a character that is never
whitespace (`Q`, a digit, `.`/`)`), so the greedy run never backtracks;
the optional `Q` group cannot be skipped once a `Q` is present because the
following `\d+` cannot match `Q`; and `\d+` cannot usefully backtrack
because `[\.\)]` never matches a digit. -/

/-- Match `\d+[\.\)]\s+` at the head of `cs`, returning the consumed length. -/
def matchNumTail (cs : List Char) : Option Nat :=
  let d := countWhile isDigitChar cs
  if d = 0 then none
  else
    match cs.drop d with
    | c :: rest =>
      if c = '.' ∨ c = ')' then
        let w := countWhile isJsSpace rest
        if w = 0 then none else some (d + 1 + w)
      else none
    | [] => none

/-- Match `\s*(?:Q\s*)?\d+[\.\)]\s+` (case-insensitive `Q`) at the head of
`cs`, returning the consumed length. -/
def matchTail (cs : List Char) : Option Nat :=
  let w := countWhile isJsSpace cs
  match cs.drop w with
  | c :: rest2 =>
    if c = 'Q' ∨ c = 'q' then
      let w2 := countWhile isJsSpace rest2
      match matchNumTail (rest2.drop w2) with
      | some n => some (w + 1 + w2 + n)
      | none => none
    else (matchNumTail (cs.drop w)).map (w + ·)
  | [] => none

/-- Try the boundary pattern at position `pos` of `src`: at position 0 the
`^` alternative applies (zero-width); elsewhere the `\n` alternative must
consume a newline first. -/
def tryMatchAt (src : List Char) (pos : Nat) : Option Nat :=
  if pos = 0 then matchTail src
  else
    match src.drop pos with
    | '\n' :: rest => (matchTail rest).map (· + 1)
    | _ => none

/-- One `regex.exec` loop: scan left to right from `pos`, collecting
`(index, length)` of every match, resuming after each match. -/
def scanFromF (src : List Char) : Nat → Nat → List (Nat × Nat)
  | 0, _ => []
  | fuel + 1, pos =>
    if src.length < pos then []
    else
      match tryMatchAt src pos with
      | some len => (pos, len) :: scanFromF src fuel (pos + len)
      | none => scanFromF src fuel (pos + 1)

/-- All boundary matches of the question regex in `src`. -/
def scanMatches (src : List Char) : List (Nat × Nat) :=
  scanFromF src (src.length + 1) 0

/-- `countQuestions` (`latexGenerator.js:298`): number of boundary matches. -/
def countQuestions (text : List Char) : Nat :=
  (scanMatches text).length

/-- Slice `src` between consecutive start indices (last slice runs to the
end), mirroring `source.slice(matches[i].index, matches[i+1].index)`. -/
def slicesFrom (src : List Char) : List Nat → List (List Char)
  | [] => []
  | [i] => [src.drop i]
  | i :: j :: rest => ((src.drop i).take (j - i)) :: slicesFrom src (j :: rest)

/-- The ordered question-block list extracted from `src`
(`latexGenerator.js:339-345`): slices between boundary indices, trimmed,
empty blocks dropped. -/
def questionBlocks (src : List Char) : List (List Char) :=
  ((slicesFrom src ((scanMatches src).map Prod.fst)).map trim).filter (· ≠ [])

/-- The grouping loop `for (i = 0; i < qs.length; i += k)`; fuel-indexed
(the JS loop does not terminate for `k = 0`; all uses have `k ≥ 1`,
and the wrapper passes fuel `qs.length`, sufficient for `k ≥ 1`). -/
def chunkListF : Nat → Nat → List α → List (List α)
  | 0, _, _ => []
  | fuel + 1, k, qs =>
    if qs.isEmpty then []
    else qs.take k :: chunkListF fuel k (qs.drop k)

/-- Group blocks into chunks of at most `k`, in order (`latexGenerator.js:347-355`). -/
def groupBlocks (k : Nat) (qs : List (List Char)) : List (List (List Char)) :=
  if qs.length ≤ k then [qs] else chunkListF qs.length k qs

/-- `chunkWorksheet` (`latexGenerator.js:324-356`), block-level view: each
chunk as its list of question blocks (before the `join('\n\n')`). -/
def chunkWorksheetBlocks (text : List Char) (k : Nat) : List (List (List Char)) :=
  let source := trim text
  if source = [] then []
  else if scanMatches source = [] then [[source]]
  else groupBlocks k (questionBlocks source)

/-- `chunkWorksheet` (`latexGenerator.js:324-356`), string level: the
blocks of each chunk joined with a blank line. -/
def chunkWorksheet (text : List Char) (k : Nat) : List (List Char) :=
  let source := trim text
  if source = [] then []
  else if scanMatches source = [] then [source]
  else
    let qs := questionBlocks source
    if qs.length ≤ k then [interc (str "\n\n") qs]
    else (chunkListF qs.length k qs).map (interc (str "\n\n"))

example : scanMatches (str "1. a\n2. b\n3. c") = [(0, 3), (4, 4), (9, 4)] := by decide

example : questionBlocks (str "intro\n1. a\n2. b\n3. c") =
    [str "1. a", str "2. b", str "3. c"] := by decide

example : chunkWorksheet (str "1. a\n2. b\n3. c") 2 =
    [str "1. a\n\n2. b", str "3. c"] := by decide

/-! ## Generated-text cleaner (`latexGenerator.js:206-231`) -/

/-- `line.trim().replace(/\s+/g, ' ')`, interior part: collapse every
whitespace run to a single space (flag: previous char was whitespace). -/
def collapseWsGo : Bool → List Char → List Char
  | _, [] => []
  | prevWs, c :: rest =>
    if isJsSpace c then
      (if prevWs then [] else [' ']) ++ collapseWsGo true rest
    else c :: collapseWsGo false rest

/-- The per-line normalization used by `removeDuplicateLines`:
`line.trim().replace(/\s+/g, ' ')`. -/
def normLine (l : List Char) : List Char :=
  collapseWsGo false (trim l)

/-- The dedup loop of `removeDuplicateLines`: skip a line whose non-empty
normalization equals the previous pushed line's normalization. -/
def dedupGo (last : List Char) : List (List Char) → List (List Char)
  | [] => []
  | l :: rest =>
    let n := normLine l
    if n ≠ [] ∧ n = last then dedupGo last rest
    else l :: dedupGo n rest

/-- `removeDuplicateLines` (`latexGenerator.js:218-231`). -/
def removeDuplicateLines (text : List Char) : List Char :=
  trim (interc (str "\n") (dedupGo [] (splitCR text)))

/-- `text.replace(/^```[\s\S]*?\n?/gm, '')`: the lazy `[\s\S]*?` always
matches empty (the following `\n?` is optional), so each match is three
backquotes at a `^` position plus one immediately following newline. -/
def stripTicksPass1 (s : List Char) : List Char :=
  scanRepl
    (fun cs atLS =>
      if atLS ∧ startsWithSeq [btick, btick, btick] cs then
        match cs.drop 3 with
        | '\n' :: _ => some (4, [])
        | _ => some (3, [])
      else none)
    s

/-- `text.replace(/^```\s*\n?/gm, '')`: three backquotes at a `^` position,
then a greedy whitespace run (which subsumes the optional newline). -/
def stripTicksPass2 (s : List Char) : List Char :=
  scanRepl
    (fun cs atLS =>
      if atLS ∧ startsWithSeq [btick, btick, btick] cs then
        some (3 + countWhile isJsSpace (cs.drop 3), [])
      else none)
    s

/-- `cleanGeneratedText` (`latexGenerator.js:206-212`). -/
def cleanGeneratedText (text : List Char) : List Char :=
  removeDuplicateLines (trim (stripTicksPass2 (stripTicksPass1 text)))

/-! ## Chunk-output merger (`latexGenerator.js:362-390`) -/

/-- The manual's title banner line. -/
def headerLine : List Char :=
  str "SPECTROPY-IIT FOUNDATION MENTOR" ++ [apos] ++ str "S MANUAL"

/-- The answer-key banner line. -/
def answerKeyLine : List Char :=
  str "Answer Key and Detailed Solutions"

/-- The removal test of `stripHeader` applied to a raw line: its trimmed
form equals one of the two banner lines, or starts with `Worksheet:` or
`Syllabus Topics Covered:`. -/
def isBannerLine (l : List Char) : Bool :=
  trim l = headerLine ∨ trim l = answerKeyLine ∨
  startsWithSeq (str "Worksheet:") (trim l) ∨
  startsWithSeq (str "Syllabus Topics Covered:") (trim l)

/-- `stripHeader` (`latexGenerator.js:373-390`). -/
def stripHeader (text : List Char) : List Char :=
  trim (interc (str "\n") ((splitCR text).filter (fun l => ¬ isBannerLine l)))

/-- `mergeChunkOutputs` (`latexGenerator.js:362-367`): first output kept
as-is, later outputs header-stripped, empties dropped, joined by a blank
line, trimmed. -/
def mergeChunkOutputs (outputs : List (List Char)) : List Char :=
  match outputs with
  | [] => []
  | first :: rest =>
    trim (interc (str "\n\n") (first :: (rest.map stripHeader).filter (· ≠ [])))

/-- Number of header-banner lines of a text (lines split on `\r?\n` whose
trimmed form is one of the banner lines). -/
def countBanner (s : List Char) : Nat :=
  ((splitCR s).filter (fun l => isBannerLine l)).length

/-! ## `splitChunkInHalf` (`latexGenerator.js:308-318`)

`source.split(/\n(?=\s*(?:Q\s*)?\d+[\.\)]\s+)/i)`: every newline followed
(lookahead, not consumed) by the boundary tail is a delimiter.  The split
regex has no `g` flag, but `String.split` always splits on every match. -/

/-- Split on newlines at question boundaries (delimiting newline dropped). -/
def splitAtQuestionNl : List Char → List (List Char)
  | [] => [[]]
  | '\n' :: rest =>
    if (matchTail rest).isSome then [] :: splitAtQuestionNl rest
    else
      match splitAtQuestionNl rest with
      | l :: ls => ('\n' :: l) :: ls
      | [] => [['\n']]
  | c :: rest =>
    match splitAtQuestionNl rest with
    | l :: ls => (c :: l) :: ls
    | [] => [[c]]

/-- `splitChunkInHalf`: split the block list at its midpoint (ceiling),
returning the trimmed halves re-joined with newlines; single-part input is
returned unsplit; empty input gives no parts. -/
def splitChunkInHalf (text : List Char) : List (List Char) :=
  let source := trim text
  if source = [] then []
  else
    let parts := splitAtQuestionNl source
    if parts.length ≤ 1 then [source]
    else
      let mid := (parts.length + 1) / 2
      [trim (interc (str "\n") (parts.take mid)),
       trim (interc (str "\n") (parts.drop mid))].filter (· ≠ [])

example : removeDuplicateLines (str "A\na") = str "A\na" := by decide
example : removeDuplicateLines (str "x\nx\nx\ny") = str "x\ny" := by decide
example : splitChunkInHalf (str "1. a\n2. b") = [str "1. a", str "2. b"] := by decide
example : countBanner (headerLine ++ str "\nbody") = 1 := by decide
example : stripHeader (headerLine ++ str "\nWorksheet: W\nbody") = str "body" := by decide

/-! ## Unicode/math text normalizer
(`src/backend/services/fileExtractor.js:310-449`) -/

/-- Case-insensitive character comparison (ASCII simple folding, as the
`i` flag behaves on the ASCII patterns used here). -/
def eqCI (a b : Char) : Bool :=
  a.toLower = b.toLower

/-- Strip a case-insensitive literal prefix, returning the rest. -/
def stripCI : List Char → List Char → Option (List Char)
  | [], l => some l
  | _ :: _, [] => none
  | p :: ps, c :: cs => if eqCI p c then stripCI ps cs else none

/-- `pat` occurs (case-insensitively) somewhere in `l` (`/pat/i.test(l)`). -/
def containsCI (pat : List Char) : List Char → Bool
  | [] => (stripCI pat []).isSome
  | c :: rest => (stripCI pat (c :: rest)).isSome ∨ containsCI pat rest

/-- `/^CUQ,\s*JEE\s*MAIN/i.test(l)`. -/
def testCuq (l : List Char) : Bool :=
  match stripCI (str "CUQ,") l with
  | none => false
  | some r1 =>
    match stripCI (str "JEE") (r1.dropWhile isJsSpace) with
    | none => false
    | some r2 => (stripCI (str "MAIN") (r2.dropWhile isJsSpace)).isSome

/-- `/^JEE\s*MAIN\s+LEVEL/i.test(l)` (`\s+`: at least one space). -/
def testJeeMainLevel (l : List Char) : Bool :=
  match stripCI (str "JEE") l with
  | none => false
  | some r1 =>
    match stripCI (str "MAIN") (r1.dropWhile isJsSpace) with
    | none => false
    | some r2 =>
      match r2 with
      | c :: _ =>
        isJsSpace c ∧ (stripCI (str "LEVEL") (r2.dropWhile isJsSpace)).isSome
      | [] => false

/-- `/^JEE\s*ADVANCED\s+LEVEL/i.test(l)`. -/
def testJeeAdvancedLevel (l : List Char) : Bool :=
  match stripCI (str "JEE") l with
  | none => false
  | some r1 =>
    match stripCI (str "ADVANCED") (r1.dropWhile isJsSpace) with
    | none => false
    | some r2 =>
      match r2 with
      | c :: _ =>
        isJsSpace c ∧ (stripCI (str "LEVEL") (r2.dropWhile isJsSpace)).isSome
      | [] => false

/-- `/^\d+$/.test(l)`: entirely (one or more) ASCII digits. -/
def allDigits (l : List Char) : Bool :=
  ¬ l.isEmpty ∧ l.all isDigitChar

/-- The watermark line filter of `normalizeMathText` (lines 318-331):
keep blank lines, drop known watermark/banner/page-number lines. -/
def keepLine (line : List Char) : Bool :=
  let t := trim line
  if t.isEmpty then true
  else
    ¬ (containsCI (str "SPECTROPY") t ∨ containsCI (str "Maestro program") t ∨
       testCuq t ∨ testJeeMainLevel t ∨ testJeeAdvancedLevel t ∨ allDigits t)

/-- `output.replace(/\n{3,}/g, '\n\n')`: collapse runs of three or more
newlines to two (greedy maximal run; deterministic). -/
def collapseNl3 (s : List Char) : List Char :=
  scanRepl
    (fun cs _ =>
      let n := countWhile (· = '\n') cs
      if 3 ≤ n then some (n, ['\n', '\n']) else none)
    s

/-- The superscript/subscript digit replacements of `normalizeMathText`
(lines 333-347), a chain of global single-character replaces. -/
def supSubFold (s : List Char) : List Char :=
  replaceChar '₉' (str "_9") (replaceChar '₈' (str "_8")
    (replaceChar '₇' (str "_7") (replaceChar '₆' (str "_6")
      (replaceChar '₅' (str "_5") (replaceChar '₄' (str "_4")
        (replaceChar '₃' (str "_3") (replaceChar '₂' (str "_2")
          (replaceChar '₁' (str "_1") (replaceChar '₀' (str "_0")
            (replaceChar '⁰' (str "^0") (replaceChar '¹' (str "^1")
              (replaceChar '³' (str "^3") (replaceChar '²' (str "^2") s)))))))))))))

/-- Match `\s*\+?\s*(\d+)` at the head, returning (consumed, digits).
Deterministic: whitespace is never `+` or a digit, and `\d+` is final. -/
def matchPlusDigits (cs : List Char) : Option (Nat × List Char) :=
  let w1 := countWhile isJsSpace cs
  let r1 := cs.drop w1
  let plus := if r1.head? = some '+' then 1 else 0
  let r2 := r1.drop plus
  let w2 := countWhile isJsSpace r2
  let r3 := r2.drop w2
  let ds := r3.takeWhile isDigitChar
  if ds.isEmpty then none else some (w1 + plus + w2 + ds.length, ds)

/-- `output.replace(/\(\s*-\s*1\s*\)\s*\^\s*\+?\s*(\d+)/g, '(-1)^$1')`. -/
def caretParenFix (s : List Char) : List Char :=
  scanRepl
    (fun cs _ =>
      match cs with
      | '(' :: r1 =>
        let w1 := countWhile isJsSpace r1
        match r1.drop w1 with
        | '-' :: r2 =>
          let w2 := countWhile isJsSpace r2
          match r2.drop w2 with
          | '1' :: r3 =>
            let w3 := countWhile isJsSpace r3
            match r3.drop w3 with
            | ')' :: r4 =>
              let w4 := countWhile isJsSpace r4
              match r4.drop w4 with
              | '^' :: r5 =>
                match matchPlusDigits r5 with
                | some (n, ds) =>
                  some (1 + w1 + 1 + w2 + 1 + w3 + 1 + w4 + 1 + n,
                    str "(-1)^" ++ ds)
                | none => none
              | _ => none
            | _ => none
          | _ => none
        | _ => none
      | _ => none)
    s

/-- `output.replace(/\^\s*\+?\s*(\d+)/g, '^$1')`. -/
def caretFix (s : List Char) : List Char :=
  scanRepl
    (fun cs _ =>
      match cs with
      | '^' :: r1 =>
        match matchPlusDigits r1 with
        | some (n, ds) => some (1 + n, '^' :: ds)
        | none => none
      | _ => none)
    s

/-- The lookahead `(?=\d+\s*$)` with the `m` flag: one or more digits,
then whitespace, reaching a line end (`$` holds before a newline or at the
end).  The greedy `\s*` backtracks to the first position satisfying `$`;
such a position exists iff, after skipping the non-newline whitespace run,
the text ends or continues with a newline. -/
def digitsToLineEnd (cs : List Char) : Bool :=
  let d := countWhile isDigitChar cs
  if d = 0 then false
  else
    let r := (cs.drop d).dropWhile (fun c => isJsSpace c ∧ c ≠ '\n')
    r.isEmpty ∨ r.head? = some '\n'

/-- `output.replace(/\n(?=\d+\s*$)/gm, '')`: delete every newline directly
followed by a digits-only line tail. -/
def dropNlBeforeDigitLine (s : List Char) : List Char :=
  scanRepl
    (fun cs _ =>
      match cs with
      | '\n' :: rest => if digitsToLineEnd rest then some (1, []) else none
      | _ => none)
    s

/-- The previous character exists and is ASCII alphanumeric. -/
def prevIsAlnum : Option Char → Bool
  | some p => isAsciiAlnum p
  | none => false

/-- The next character exists and is an ASCII letter. -/
def headIsLetter (l : List Char) : Bool :=
  match l.head? with
  | some nx => isAsciiLetter nx
  | none => false

/-- `output.replace(/\n(?=[a-zA-Z])(?<=[a-zA-Z0-9])/, '')`: no `g` flag,
so only the first newline that is preceded by an ASCII alphanumeric and
followed by an ASCII letter is deleted; the rest is copied verbatim. -/
def dropFirstNlBetweenWords : Option Char → List Char → List Char
  | _, [] => []
  | prev, c :: rest =>
    if c = '\n' ∧ prevIsAlnum prev ∧ headIsLetter rest then rest
    else c :: dropFirstNlBetweenWords (some c) rest

/-- `output.replace(/[   ]/g, ' ')`. -/
def nbspFold (s : List Char) : List Char :=
  cmap (fun c =>
    if c.toNat = 0xA0 ∨ c.toNat = 0x2007 ∨ c.toNat = 0x202F then [' '] else [c]) s

/-- The per-character mapping of `mapMathAlphanum` (lines 381-449):
fold the Mathematical Alphanumeric Symbols block to ASCII. -/
def mathAlphanumChar (c : Char) : List Char :=
  let n := c.toNat
  if 0x1D434 ≤ n ∧ n ≤ 0x1D44D then [Char.ofNat (n - (0x1D434 - 0x41))]
  else if 0x1D44E ≤ n ∧ n ≤ 0x1D467 then [Char.ofNat (n - (0x1D44E - 0x61))]
  else if 0x1D468 ≤ n ∧ n ≤ 0x1D481 then [Char.ofNat (n - (0x1D468 - 0x41))]
  else if 0x1D482 ≤ n ∧ n ≤ 0x1D49B then [Char.ofNat (n - (0x1D482 - 0x61))]
  else if 0x1D49C ≤ n ∧ n ≤ 0x1D4B5 then [Char.ofNat (n - (0x1D49C - 0x41))]
  else if 0x1D4B6 ≤ n ∧ n ≤ 0x1D4CF then [Char.ofNat (n - (0x1D4B6 - 0x61))]
  else if 0x1D4D0 ≤ n ∧ n ≤ 0x1D4E9 then [Char.ofNat (n - (0x1D4D0 - 0x41))]
  else if 0x1D4EA ≤ n ∧ n ≤ 0x1D503 then [Char.ofNat (n - (0x1D4EA - 0x61))]
  else if 0x1D504 ≤ n ∧ n ≤ 0x1D51C then [Char.ofNat (n - (0x1D504 - 0x41))]
  else if 0x1D51E ≤ n ∧ n ≤ 0x1D537 then [Char.ofNat (n - (0x1D51E - 0x61))]
  else if 0x1D538 ≤ n ∧ n ≤ 0x1D551 then [Char.ofNat (n - (0x1D538 - 0x41))]
  else if 0x1D552 ≤ n ∧ n ≤ 0x1D56B then [Char.ofNat (n - (0x1D552 - 0x61))]
  else if 0x1D56C ≤ n ∧ n ≤ 0x1D585 then [Char.ofNat (n - (0x1D56C - 0x41))]
  else if 0x1D586 ≤ n ∧ n ≤ 0x1D59F then [Char.ofNat (n - (0x1D586 - 0x61))]
  else if 0x1D7CE ≤ n ∧ n ≤ 0x1D7D7 then [Char.ofNat (n - 0x1D7CE + 0x30)]
  else [c]

/-- `mapMathAlphanum` (`fileExtractor.js:381-449`): the for-of loop over
code points appending the mapped character. -/
def mapMathAlphanum (s : List Char) : List Char :=
  cmap mathAlphanumChar s

/-- `normalizeMathText` (`fileExtractor.js:310-360`). -/
def normalizeMathText (text : List Char) : List Char :=
  if text = [] then []
  else
    let o1 := collapseNl3 (replaceLit (str "\r\n") (str "\n") text)
    let o2 := interc (str "\n") ((splitNL o1).filter keepLine)
    let o3 := caretFix (caretParenFix (supSubFold o2))
    let o4 := dropFirstNlBetweenWords none (dropNlBeforeDigitLine o3)
    mapMathAlphanum (nbspFold o4)

/-- `normalizePandocText` (`fileExtractor.js:366-375`). -/
def normalizePandocText (text : List Char) : List Char :=
  if text = [] then []
  else replaceLit ('\\' :: [apos]) [apos] (replaceLit (str "\\$") (str "$") text)

example : normalizeMathText (str "a\nb\nc") = str "ab\nc" := by decide
example : normalizeMathText (normalizeMathText (str "a\nb\nc")) = str "abc" := by decide
example : normalizeMathText (str "SPECTROPY") = [] := by decide
example : normalizeMathText ['x', Char.ofNat 0xB2] = str "x^2" := by decide
example : normalizeMathText [Char.ofNat 0x1D7D0] = str "2" := by decide
example : normalizeMathText (normalizeMathText [Char.ofNat 0x1D7D0]) = [] := by decide

/-! ## Extraction entry points (`fileExtractor.js:17-65`)

The external collaborators (pandoc, pdf-parse, pix2tex OCR) are modelled
as oracle fields.  `extractDocxWithPandoc` and `extractPdfWithPix2Tex`
catch their own failures and return `''`, so they are modelled as plain
strings; `pdf(buffer)` can throw, so it is an `Option`.  Note that
`extractDocxEquations` is defined in the source but never invoked by
`extractFromDocx`, so it has no oracle here. -/

/-- Outcomes of the external extraction collaborators for one call. -/
structure ExtractEnv where
  /-- Result of `extractDocxWithPandoc` (already `''` on any failure). -/
  pandocOut : List Char
  /-- `pdf(buffer)` result: `none` models a thrown parse error. -/
  pdfParseText : Option (List Char)
  /-- Result of `extractPdfWithPix2Tex` (already `''` on any failure). -/
  pix2texOut : List Char
deriving DecidableEq

/-- `extractFromDocx` (`fileExtractor.js:17-29`): normalize the pandoc
output; throw if the normalized base text is empty. -/
def extractFromDocx (env : ExtractEnv) : Except (List Char) (List Char) :=
  let baseText := normalizeMathText (normalizePandocText env.pandocOut)
  if baseText = [] then .error (str "Failed to extract text from DOCX: Pandoc returned empty output.")
  else .ok baseText

/-- `extractFromPdf` (`fileExtractor.js:36-49`): a pdf-parse throw is
re-thrown; otherwise the normalized base text is returned, with the OCR
equations appended when non-empty.  No emptiness check is performed. -/
def extractFromPdf (env : ExtractEnv) : Except (List Char) (List Char) :=
  match env.pdfParseText with
  | none => .error (str "Failed to extract text from PDF")
  | some t =>
    let baseText := normalizeMathText t
    if env.pix2texOut ≠ [] then
      .ok (trim (baseText ++ str "\n\n" ++ normalizeMathText env.pix2texOut))
    else .ok baseText

/-- `extractText` (`fileExtractor.js:57-65`). -/
def extractText (env : ExtractEnv) (fileType : List Char) : Except (List Char) (List Char) :=
  if fileType = str "docx" then extractFromDocx env
  else if fileType = str "pdf" then extractFromPdf env
  else .error (str "Unsupported file type")

/-- Whether an `Except` result is a success. -/
def isOkE : Except ε α → Bool
  | .ok _ => true
  | .error _ => false

/-! ## LaTeX escaping engine (`src/unnamed/part_003:255-320`, `PDFCompiler`) -/

/-- `replaceUnicodeTextSymbols` (part_003:292-303): prose-side unicode
fold, a chain of global single-character replaces. -/
def replaceUnicodeTextSymbols (s : List Char) : List Char :=
  replaceChar '∞' (str "infinity") (replaceChar 'π' (str "pi")
    (replaceChar '÷' (str "/") (replaceChar '×' (str "x")
      (replaceChar '±' (str "+/-") (replaceChar '≈' (str "~=")
        (replaceChar '≠' (str "!=") (replaceChar '≥' (str ">=")
          (replaceChar '≤' (str "<=") s))))))))

/-- The left brace and right brace characters. -/
def lbrace : Char := Char.ofNat 123

/-- The right brace character. -/
def rbrace : Char := Char.ofNat 125

/-- `escapeLatexText` (part_003:255-268): unicode fold, then the ten
reserved-character replaces, in source order (so the braces introduced by
the backslash replacement are themselves escaped by the later brace
passes, while the braces of the tilde/circumflex macros are not). -/
def escapeLatexText (s : List Char) : List Char :=
  replaceChar '^' (str "\\textasciicircum" ++ [lbrace, rbrace])
    (replaceChar '~' (str "\\textasciitilde" ++ [lbrace, rbrace])
      (replaceChar rbrace ['\\', rbrace]
        (replaceChar lbrace ['\\', lbrace]
          (replaceChar '_' (str "\\_")
            (replaceChar '#' (str "\\#")
              (replaceChar '$' (str "\\$")
                (replaceChar '%' (str "\\%")
                  (replaceChar '&' (str "\\&")
                    (replaceChar '\\' (str "\\textbackslash" ++ [lbrace, rbrace])
                      (replaceUnicodeTextSymbols s))))))))))

/-- `replaceUnicodeMathSymbols` (part_003:309-320): math-side unicode
fold to LaTeX macros; no structural escaping. -/
def replaceUnicodeMathSymbols (s : List Char) : List Char :=
  replaceChar '∞' (str "\\infty ") (replaceChar 'π' (str "\\pi ")
    (replaceChar '÷' (str "\\div ") (replaceChar '×' (str "\\times ")
      (replaceChar '±' (str "\\pm ") (replaceChar '≈' (str "\\approx ")
        (replaceChar '≠' (str "\\neq ") (replaceChar '≥' (str "\\geq ")
          (replaceChar '≤' (str "\\leq ") s))))))))

/-- Leftmost match of the math-span alternation
`\$\$[\s\S]*?\$\$|\$[^$]*?\$|\\\[[\s\S]*?\\\]|\\\([\s\S]*?\\\)` at the
head of `cs`, returning the matched length.  Alternatives are tried in
order; the lazy bodies take the closest closing delimiter. -/
def matchMathAt (cs : List Char) : Option Nat :=
  match cs with
  | '$' :: '$' :: rest =>
    match findSeqIdx (str "$$") rest with
    | some k => some (4 + k)
    | none =>
      -- first alternative failed; `\$[^$]*?\$` still matches the `$$`.
      some 2
  | '$' :: rest =>
    let run := rest.takeWhile (· ≠ '$')
    if (rest.drop run.length).isEmpty then none else some (run.length + 2)
  | '\\' :: '[' :: rest => (findSeqIdx (str "\\]") rest).map (4 + ·)
  | '\\' :: '(' :: rest => (findSeqIdx (str "\\)") rest).map (4 + ·)
  | _ => none

/-- `source.split(mathRegex)` with the separator captured: alternating
non-separator and separator parts, including empty ones (JS `split` keeps
empty between-parts; the map in the caller turns them into `''`). -/
def splitMathPartsF : Nat → List Char → List Char → List (List Char)
  | 0, acc, cs => [acc.reverse ++ cs]
  | _ + 1, acc, [] => [acc.reverse]
  | fuel + 1, acc, c :: rest =>
    match matchMathAt (c :: rest) with
    | some n =>
      acc.reverse :: (c :: rest).take n ::
        splitMathPartsF fuel [] ((c :: rest).drop n)
    | none => splitMathPartsF fuel (c :: acc) rest

/-- `source.split(mathRegex)` of `escapeLatexTextPreservingMath`. -/
def splitMathParts (s : List Char) : List (List Char) :=
  splitMathPartsF (s.length + 1) [] s

/-- The anchored test `^(\$\$[\s\S]*?\$\$|\$[^$]*?\$|\\\[[\s\S]*?\\\]|\\\([\s\S]*?\\\))$`.
With both anchors and backtracking lazy bodies, each alternative accepts
exactly: `$$…$$` with length ≥ 4; `$…$` whose interior has no `$`;
`\[…\]` with length ≥ 4; `\(…\)` with length ≥ 4. -/
def isMathSpan (p : List Char) : Bool :=
  (4 ≤ p.length ∧ startsWithSeq (str "$$") p ∧ endsWithSeq (str "$$") p) ∨
  (2 ≤ p.length ∧ p.head? = some '$' ∧ p.getLast? = some '$' ∧
    ((p.drop 1).dropLast.all (· ≠ '$'))) ∨
  (4 ≤ p.length ∧ startsWithSeq (str "\\[") p ∧ endsWithSeq (str "\\]") p) ∨
  (4 ≤ p.length ∧ startsWithSeq (str "\\(") p ∧ endsWithSeq (str "\\)") p)

/-- `escapeLatexTextPreservingMath` (part_003:274-286): split into spans,
pass math spans through the math-symbol fold only, escape the rest. -/
def escapeLatexTextPreservingMath (s : List Char) : List Char :=
  concatAll ((splitMathParts s).map (fun part =>
    if part = [] then []
    else if isMathSpan part then replaceUnicodeMathSymbols part
    else escapeLatexText part))

example : escapeLatexTextPreservingMath (str "50% off") = str "50\\% off" := by decide
example : escapeLatexTextPreservingMath (str "$500") = str "\\$500" := by decide
example : escapeLatexTextPreservingMath (str "a $x_2$ b_c") =
    str "a $x_2$ b\\_c" := by decide
example : escapeLatexText [apos] = [apos] := by decide
example : escapeLatexText ['~'] = str "\\textasciitilde" ++ [lbrace, rbrace] := by decide
example : escapeLatexText ['\\'] =
    str "\\textbackslash" ++ ['\\', lbrace, '\\', rbrace] := by decide

/-! ## Pandoc sanitizer (`src/backend/services/docxCompiler.js:20-70`) -/

/-- `text.replace(/\$\$\s*\$([\s\S]*?)\$/g, '$$ $1 $$')`.  In a JavaScript
replacement string `$$` denotes a literal `$`, so the replacement text is
`'$' + ' ' + capture + ' ' + '$'`.  The pattern consumes `$$`, whitespace,
`$`, then the lazy body up to the next `$`. -/
def displayMathFix (s : List Char) : List Char :=
  scanRepl
    (fun cs _ =>
      match cs with
      | '$' :: '$' :: r1 =>
        let w := countWhile isJsSpace r1
        match r1.drop w with
        | '$' :: r2 =>
          let body := r2.takeWhile (· ≠ '$')
          if (r2.drop body.length).isEmpty then none
          else some (2 + w + 1 + body.length + 1,
            str "$ " ++ body ++ str " $")
        | _ => none
      | _ => none)
    s

/-- `text.replace(/\*\*([^*]+)\*\*/g, '\\textbf{$1}')`.  Deterministic:
`[^*]+` is the maximal star-free run and cannot extend past a `*`. -/
def boldFix (s : List Char) : List Char :=
  scanRepl
    (fun cs _ =>
      match cs with
      | '*' :: '*' :: r1 =>
        let body := r1.takeWhile (· ≠ '*')
        if body.isEmpty then none
        else if startsWithSeq (str "**") (r1.drop body.length) then
          some (2 + body.length + 2, str "\\textbf" ++ [lbrace] ++ body ++ [rbrace])
        else none
      | _ => none)
    s

/-- `text.replace(/(?<!\\)_/g, '\\_')`: every underscore not immediately
preceded (in the original text) by a backslash.  The scanner keeps the
previous original character. -/
def escapeLoneUnderscores : Option Char → List Char → List Char
  | _, [] => []
  | prev, c :: rest =>
    (if c = '_' ∧ prev ≠ some '\\' then str "\\_" else [c]) ++
      escapeLoneUnderscores (some c) rest

/-- The unicode-to-LaTeX replacements of `sanitizeLatexForPandoc`
(docxCompiler.js:36-57), in source order. -/
def sanitizeUnicodePass (s : List Char) : List Char :=
  replaceChar 'Ω' (str "\\Omega ") (replaceChar 'Δ' (str "\\Delta ")
    (replaceChar 'ω' (str "\\omega ") (replaceChar 'φ' (str "\\phi ")
      (replaceChar 'σ' (str "\\sigma ") (replaceChar 'μ' (str "\\mu ")
        (replaceChar 'λ' (str "\\lambda ") (replaceChar 'θ' (str "\\theta ")
          (replaceChar 'δ' (str "\\delta ") (replaceChar 'γ' (str "\\gamma ")
            (replaceChar 'β' (str "\\beta ") (replaceChar 'α' (str "\\alpha ")
              (replaceChar '∞' (str "\\infty ") (replaceChar 'π' (str "\\pi ")
                (replaceChar '÷' (str "\\div ") (replaceChar '×' (str "\\times ")
                  (replaceChar '±' (str "\\pm ") (replaceChar '≈' (str "\\approx ")
                    (replaceChar '≠' (str "\\neq ") (replaceChar '≥' (str "\\geq ")
                      (replaceChar '≤' (str "\\leq ") s))))))))))))))))))))

/-- For the `^\s*LIT\s*$`-shaped `gm` passes: a `^`-anchored match of a
leading whitespace run (which may span lines), the literal, and a trailing
whitespace run that must stop at a line end.  Returns the consumed length
(`$` is zero-width: the trailing run stops just before a newline or at the
end).  The greedy trailing `\s*` backtracks to the last in-run position
where `$` holds. -/
def matchWsLitWsEol (lit cs : List Char) : Option Nat :=
  let w1 := countWhile isJsSpace cs
  let r1 := cs.drop w1
  if startsWithSeq lit r1 then
    let r2 := r1.drop lit.length
    let wsRun := r2.takeWhile isJsSpace
    let rest := r2.drop wsRun.length
    if rest.isEmpty then some (w1 + lit.length + wsRun.length)
    else
      match (List.range (wsRun.length + 1)).filter
          (fun k => (r2.drop k).head? = some '\n') |>.getLast? with
      | some k => some (w1 + lit.length + k)
      | none => none
  else none

/-- `text.replace(/^\s*\{=html\}\s*$/gm, '')`. -/
def dropHtmlMarker (s : List Char) : List Char :=
  scanRepl
    (fun cs atLS =>
      if atLS then (matchWsLitWsEol ([lbrace] ++ str "=html" ++ [rbrace]) cs).map (·, [])
      else none)
    s

/-- `text.replace(/^\s*<!--\s*-->\s*$/gm, '')`: same shape with an
interior `\s*` between the two comment delimiters. -/
def dropEmptyComment (s : List Char) : List Char :=
  scanRepl
    (fun cs atLS =>
      if ¬ atLS then none
      else
        let w1 := countWhile isJsSpace cs
        let r1 := cs.drop w1
        if startsWithSeq (str "<!--") r1 then
          let r2 := r1.drop 4
          let wMid := countWhile isJsSpace r2
          let r3 := r2.drop wMid
          if startsWithSeq (str "-->") r3 then
            let r4 := r3.drop 3
            let wsRun := r4.takeWhile isJsSpace
            let rest := r4.drop wsRun.length
            if rest.isEmpty then some (w1 + 4 + wMid + 3 + wsRun.length, [])
            else
              match (List.range (wsRun.length + 1)).filter
                  (fun k => (r4.drop k).head? = some '\n') |>.getLast? with
              | some k => some (w1 + 4 + wMid + 3 + k, [])
              | none => none
          else none
        else none)
    s

/-- Common part of the stray-brace passes: at a `^` position, whitespace,
`}`, whitespace; `lookahead` examines the remainder. -/
def matchStrayBrace (lookahead : List Char → Bool) (cs : List Char) : Option Nat :=
  let w1 := countWhile isJsSpace cs
  match cs.drop w1 with
  | c :: r1 =>
    if c = rbrace then
      let w2 := countWhile isJsSpace r1
      if lookahead (r1.drop w2) then some (w1 + 1 + w2) else none
    else none
  | [] => none

/-- `(?=[a-d]\))`. -/
def aheadOptionMarker (l : List Char) : Bool :=
  match l with
  | c1 :: c2 :: _ => ('a' ≤ c1 ∧ c1 ≤ 'd') ∧ c2 = ')'
  | _ => false

/-- `(?=\d+[\.\)]\s)`. -/
def aheadQuestionMarker (l : List Char) : Bool :=
  let d := countWhile isDigitChar l
  if d = 0 then false
  else
    match l.drop d with
    | c1 :: c2 :: _ => (c1 = '.' ∨ c1 = ')') ∧ isJsSpace c2
    | _ => false

/-- The three stray-brace removal passes (docxCompiler.js:64-66). -/
def dropStrayBraces (s : List Char) : List Char :=
  scanRepl (fun cs atLS => if atLS then (matchStrayBrace (fun _ => true) cs).map (·, []) else none)
    (scanRepl (fun cs atLS => if atLS then (matchStrayBrace aheadQuestionMarker cs).map (·, []) else none)
      (scanRepl (fun cs atLS => if atLS then (matchStrayBrace aheadOptionMarker cs).map (·, []) else none) s))

/-- `sanitizeLatexForPandoc` (`docxCompiler.js:20-70`), all passes in
source order (the final `\textbackslash{}` pass replaces the literal with
itself and is the identity in effect, but is modelled for fidelity). -/
def sanitizeLatexForPandoc (s : List Char) : List Char :=
  let t1 := displayMathFix s
  let t2 := escapeLoneUnderscores none
    (replaceLit (str "__") (str "\\_\\_")
      (boldFix (replaceLit (str "\\**") (str "**")
        (replaceLit (str "\\\"") (str "\"") t1))))
  let t3 := sanitizeUnicodePass t2
  replaceLit (str "\\textbackslash" ++ [lbrace, rbrace])
    (str "\\textbackslash" ++ [lbrace, rbrace])
    (dropStrayBraces (dropEmptyComment (dropHtmlMarker t3)))

example : sanitizeLatexForPandoc (str "$$ $x$$") = str "$ x $$" := by decide
example : sanitizeLatexForPandoc (str "a_b") = str "a\\_b" := by decide
example : sanitizeLatexForPandoc (str "**bold**") =
    str "\\textbf" ++ [lbrace] ++ str "bold" ++ [rbrace] := by decide

/-! ## Chunked generation recursion (`latexGenerator.js:265-292`)

The Gemini call is modelled as an oracle `api : prompt → response`.  The
recursion is fuel-indexed (wrapper fuel `maxDepth + 1`): the guard
`depth < maxDepth` means recursive calls only ever happen at depths
`0, …, maxDepth`, so the fuel, which decreases by one per level, never
reaches zero on a path the source can take. -/

/-- JS `toUpperCase` on the ASCII range used by the metadata strings. -/
def upperStr (s : List Char) : List Char :=
  s.map Char.toUpper

/-- `resolveWorksheetTitle` (`latexGenerator.js:396-405`). -/
def resolveWorksheetTitle (program subject chapterName : List Char) : List Char :=
  let safeChapter := trim chapterName
  if safeChapter ≠ [] then upperStr safeChapter
  else
    let fallback := interc (str " - ") (([trim program, trim subject]).filter (· ≠ []))
    if fallback = [] then str "WORKSHEET" else fallback

/-- The header banner block of `buildPrompt` (`latexGenerator.js:143-150`). -/
def promptHeaderBlock (program subject chapterName : List Char) (includeHeader : Bool) :
    List Char :=
  if includeHeader then
    headerLine ++ str "\nWorksheet: " ++ resolveWorksheetTitle program subject chapterName ++
    str "\nSyllabus Topics Covered: <comma-separated topics inferred from the worksheet>\nAnswer Key and Detailed Solutions\n\n"
  else []

/-- `buildPrompt` (`latexGenerator.js:141-200`). -/
def buildPrompt (text program subject chapterName : List Char) (includeHeader : Bool) :
    List Char :=
  str "You are an educational worksheet expert.\nRead ALL questions from the worksheet and generate full solutions for every question.\nReturn ONLY plain text. No markdown fences, no bullet markdown.\nPreserve LaTeX math exactly as provided in the input, including delimiters ($...$, $$...$$, \\( ... \\), \\[ ... \\]).\nDo NOT rewrite, simplify, or remove any LaTeX.\nUse only ASCII characters (LaTeX backslashes are allowed).\nSTRICT RULES (must follow):\n1. Do NOT change question order.\n2. Do NOT skip any question.\n3. Do NOT merge questions.\n4. Do NOT renumber questions.\n5. Output must follow the exact format.\n6. Keep all mathematical expressions exactly as in the input (do not rewrite or simplify).\n7. Preserve numbers, symbols, and equation formatting verbatim.\n\nFORMAT (follow exactly):\n" ++
  promptHeaderBlock program subject chapterName includeHeader ++
  str "1. <question text>\n(a) ...\n(b) ...\n(c) ...\n(d) ...\nKey: (<correct option letter>) <answer text if available>\nSolution:\n <explanation line 1>\n <explanation line 2>\n <explanation line 3>\n <explanation line 4>\n <explanation line 5>\n\nIf \"Syllabus Topics Covered:\" is present, fill it with concise comma-separated topics (do not leave it empty).\n\nRULES:\n1. Keep every question from the worksheet, do NOT skip any.\n2. Do NOT renumber existing questions if numbers are provided.\n3. Keep options on their own lines exactly as shown above.\n4. Provide a Key and Solution for each question.\n5. Solution must be 5 to 6 short lines, each starting with \"- \".\n6. If any question text is unclear, still output a best-effort key and solution.\n\nConvert the following worksheet content into the format above.\n\nPROGRAM: " ++
  upperStr program ++ str "\nSUBJECT: " ++ upperStr subject ++
  str "\n\nCONTENT:\n" ++ text ++ str "\n\nReturn ONLY the plain text. No explanations."

/-- `generateChunkWithRetries` (`latexGenerator.js:265-292`), fuel-indexed.
At fuel 0 (unreachable from the wrapper on any source path) the cleaned
text is returned, as in the non-recursing branch. -/
def generateChunkWithRetriesF (api : List Char → List Char) (maxDepth : Nat)
    (program subject chapterName : List Char) :
    Nat → List Char → Bool → Nat → List Char
  | 0, chunkText, includeHeader, _ =>
    cleanGeneratedText (api (buildPrompt chunkText program subject chapterName includeHeader))
  | fuel + 1, chunkText, includeHeader, depth =>
    let cleaned := cleanGeneratedText
      (api (buildPrompt chunkText program subject chapterName includeHeader))
    let expected := countQuestions chunkText
    let actual := countQuestions cleaned
    if 0 < expected ∧ 0 < actual ∧ actual < expected ∧ depth < maxDepth then
      match splitChunkInHalf chunkText with
      | [] => mergeChunkOutputs []
      | sc :: restSc =>
        mergeChunkOutputs
          (generateChunkWithRetriesF api maxDepth program subject chapterName
              fuel sc includeHeader (depth + 1) ::
            restSc.map (fun sc2 =>
              generateChunkWithRetriesF api maxDepth program subject chapterName
                fuel sc2 false (depth + 1)))
    else cleaned

/-- `generateChunkWithRetries` entry point at recursion depth `depth`. -/
def generateChunkWithRetries (api : List Char → List Char) (maxDepth : Nat)
    (chunkText program subject chapterName : List Char) (includeHeader : Bool)
    (depth : Nat) : List Char :=
  generateChunkWithRetriesF api maxDepth program subject chapterName
    (maxDepth + 1 - depth) chunkText includeHeader depth

/-- The multiset of `depth` arguments of every invocation in the call tree
of `generateChunkWithRetriesF` (same guard, same split). -/
def invokedDepthsF (api : List Char → List Char) (maxDepth : Nat)
    (program subject chapterName : List Char) :
    Nat → List Char → Bool → Nat → List Nat
  | 0, _, _, depth => [depth]
  | fuel + 1, chunkText, includeHeader, depth =>
    let cleaned := cleanGeneratedText
      (api (buildPrompt chunkText program subject chapterName includeHeader))
    let expected := countQuestions chunkText
    let actual := countQuestions cleaned
    depth ::
      (if 0 < expected ∧ 0 < actual ∧ actual < expected ∧ depth < maxDepth then
        match splitChunkInHalf chunkText with
        | [] => []
        | sc :: restSc =>
          invokedDepthsF api maxDepth program subject chapterName fuel sc
              includeHeader (depth + 1) ++
            concatAll (restSc.map (fun sc2 =>
              invokedDepthsF api maxDepth program subject chapterName fuel sc2
                false (depth + 1)))
      else [])

/-- Depths invoked by a top-level (depth 0) generation call. -/
def invokedDepths (api : List Char → List Char) (maxDepth : Nat)
    (chunkText program subject chapterName : List Char) (includeHeader : Bool) :
    List Nat :=
  invokedDepthsF api maxDepth program subject chapterName (maxDepth + 1)
    chunkText includeHeader 0

/-! ## Job status state machine (`src/unnamed/part_000:207-261`,
`WorksheetController.processWorksheet`)

Each `updateStatus` call and each pipeline stage is an oracle boolean; a
`false` write models a database error thrown by `updateStatus`, a `false`
stage models a thrown stage error.  The trace is the list of status
values actually persisted, in order.  When any step throws, the `catch`
block attempts one `failed` write. -/

/-- `WORKSHEET_STATUS` (`constants.js:19-25`). -/
inductive WStatus where
  | extracting
  | generating
  | compiling
  | ready
  | failed
deriving DecidableEq, Repr

/-- Oracle outcomes of one `processWorksheet` run: the five possible
status writes and the six fallible pipeline steps. -/
structure RunEnv where
  wExtracting : Bool
  wGenerating : Bool
  wCompiling : Bool
  wReady : Bool
  wFailed : Bool
  extractOk : Bool
  generateOk : Bool
  pdfCompileOk : Bool
  pdfUploadOk : Bool
  docxCompileOk : Bool
  docxUploadOk : Bool
deriving DecidableEq

/-- `RunEnv` as an 11-fold boolean product. -/
def RunEnv.toTuple (e : RunEnv) :
    Bool × Bool × Bool × Bool × Bool × Bool × Bool × Bool × Bool × Bool × Bool :=
  ⟨e.wExtracting, e.wGenerating, e.wCompiling, e.wReady, e.wFailed, e.extractOk,
   e.generateOk, e.pdfCompileOk, e.pdfUploadOk, e.docxCompileOk, e.docxUploadOk⟩

/-- Rebuild a `RunEnv` from the boolean tuple. -/
def RunEnv.ofTuple
    (t : Bool × Bool × Bool × Bool × Bool × Bool × Bool × Bool × Bool × Bool × Bool) :
    RunEnv :=
  ⟨t.1, t.2.1, t.2.2.1, t.2.2.2.1, t.2.2.2.2.1, t.2.2.2.2.2.1, t.2.2.2.2.2.2.1,
   t.2.2.2.2.2.2.2.1, t.2.2.2.2.2.2.2.2.1, t.2.2.2.2.2.2.2.2.2.1, t.2.2.2.2.2.2.2.2.2.2⟩

instance : Fintype RunEnv :=
  Fintype.ofBijective RunEnv.ofTuple
    ⟨fun a b h => by
      cases a
      cases b
      simpa [RunEnv.ofTuple, Prod.ext_iff, RunEnv.mk.injEq] using h,
     fun e => ⟨e.toTuple, by cases e; rfl⟩⟩

/-- The catch block: one attempted `failed` write. -/
def failTail (e : RunEnv) (t : List WStatus) : List WStatus :=
  if e.wFailed then t ++ [WStatus.failed] else t

/-- The sequence of statuses persisted by one `processWorksheet` run. -/
def pipelineTrace (e : RunEnv) : List WStatus :=
  if ¬ e.wExtracting then failTail e [] else
  let t1 := [WStatus.extracting]
  if ¬ e.extractOk then failTail e t1 else
  if ¬ e.wGenerating then failTail e t1 else
  let t2 := t1 ++ [WStatus.generating]
  if ¬ e.generateOk then failTail e t2 else
  if ¬ e.wCompiling then failTail e t2 else
  let t3 := t2 ++ [WStatus.compiling]
  if ¬ e.pdfCompileOk then failTail e t3 else
  if ¬ e.pdfUploadOk then failTail e t3 else
  if ¬ e.docxCompileOk then failTail e t3 else
  if ¬ e.docxUploadOk then failTail e t3 else
  if ¬ e.wReady then failTail e t3 else
  t3 ++ [WStatus.ready]

/-- The traces reachable from `processWorksheet`: prefixes of the success
chain, optionally closed by `failed`, or the full success chain. -/
def allowedTraces : List (List WStatus) :=
  [[], [WStatus.failed],
   [WStatus.extracting], [WStatus.extracting, WStatus.failed],
   [WStatus.extracting, WStatus.generating],
   [WStatus.extracting, WStatus.generating, WStatus.failed],
   [WStatus.extracting, WStatus.generating, WStatus.compiling],
   [WStatus.extracting, WStatus.generating, WStatus.compiling, WStatus.failed],
   [WStatus.extracting, WStatus.generating, WStatus.compiling, WStatus.ready]]

/-- The all-success oracle. -/
def allOkEnv : RunEnv :=
  ⟨true, true, true, true, true, true, true, true, true, true, true⟩

example : pipelineTrace allOkEnv =
    [WStatus.extracting, WStatus.generating, WStatus.compiling, WStatus.ready] := by decide

/-! ## Residual definitions used by the theorem statements -/

/-- The net per-character effect of `escapeLatexText`: the unicode fold
composed with the ten reserved-character passes, taking the pass order
into account (the braces introduced by the backslash pass are escaped by
the later brace passes; those of the tilde/circumflex macros are not;
`≈` first becomes `~=` and its tilde is then escaped). -/
def escCharTable (c : Char) : List Char :=
  if c = '≤' then str "<="
  else if c = '≥' then str ">="
  else if c = '≠' then str "!="
  else if c = '≈' then str "\\textasciitilde" ++ [lbrace, rbrace] ++ str "="
  else if c = '±' then str "+/-"
  else if c = '×' then str "x"
  else if c = '÷' then str "/"
  else if c = 'π' then str "pi"
  else if c = '∞' then str "infinity"
  else if c = '\\' then str "\\textbackslash" ++ ['\\', lbrace, '\\', rbrace]
  else if c = '&' then str "\\&"
  else if c = '%' then str "\\%"
  else if c = '$' then str "\\$"
  else if c = '#' then str "\\#"
  else if c = '_' then str "\\_"
  else if c = lbrace then ['\\', lbrace]
  else if c = rbrace then ['\\', rbrace]
  else if c = '~' then str "\\textasciitilde" ++ [lbrace, rbrace]
  else if c = '^' then str "\\textasciicircum" ++ [lbrace, rbrace]
  else [c]

/-- The net per-character effect of `replaceUnicodeMathSymbols`. -/
def mathSymTable (c : Char) : List Char :=
  if c = '≤' then str "\\leq "
  else if c = '≥' then str "\\geq "
  else if c = '≠' then str "\\neq "
  else if c = '≈' then str "\\approx "
  else if c = '±' then str "\\pm "
  else if c = '×' then str "\\times "
  else if c = '÷' then str "\\div "
  else if c = 'π' then str "\\pi "
  else if c = '∞' then str "\\infty "
  else [c]

/-- The nine LaTeX-reserved characters of the escaping claim. -/
def reservedChars : List Char :=
  ['&', '%', '$', '#', '_', lbrace, rbrace, '~', '^']

/-- Apply `f` to the last element of a list. -/
def modLast (f : α → α) : List α → List α
  | [] => []
  | [x] => [f x]
  | x :: y :: ys => x :: modLast f (y :: ys)

/-- The comparison the specification claims for duplicate-line collapsing:
case folding on top of the whitespace normalization. -/
def normFoldLine (l : List Char) : List Char :=
  (normLine l).map Char.toLower

/-! # Theorems -/

/-! ## Basic lemmas about the concatenation helpers -/

theorem concatAll_append (a b : List (List α)) :
    concatAll (a ++ b) = concatAll a ++ concatAll b := by
  induction a with
  | nil => rfl
  | cons x xs ih => simp [concatAll, ih]

theorem cmap_append (f : α → List β) (a b : List α) :
    cmap f (a ++ b) = cmap f a ++ cmap f b := by
  simp [cmap, concatAll_append]

theorem cmap_cons (f : α → List β) (c : α) (l : List α) :
    cmap f (c :: l) = f c ++ cmap f l := rfl

theorem cmap_nil (f : α → List β) : cmap f [] = [] := rfl

theorem replaceChar_append (t : Char) (r : List Char) (a b : List Char) :
    replaceChar t r (a ++ b) = replaceChar t r a ++ replaceChar t r b := by
  simp [replaceChar, cmap_append]

theorem mem_concatAll_map {f : α → List β} {l : List α} {d : β} :
    d ∈ concatAll (l.map f) ↔ ∃ x ∈ l, d ∈ f x := by
  induction l with
  | nil => simp [concatAll]
  | cons x xs ih => simp [concatAll, ih]

/-! ## C1: chunk completeness -/

theorem chunkListF_join (k : Nat) (hk : 1 ≤ k) :
    ∀ (fuel : Nat) (qs : List (List Char)), qs.length ≤ fuel →
      concatAll (chunkListF fuel k qs) = qs := by
  intro fuel
  induction fuel with
  | zero =>
    intro qs h
    have : qs = [] := List.eq_nil_of_length_eq_zero (Nat.le_zero.mp h)
    simp [this, chunkListF, concatAll]
  | succ n ih =>
    intro qs h
    by_cases hq : qs = []
    · simp [hq, chunkListF, concatAll]
    · have hkd : (qs.drop k).length ≤ n := by
        have hlen : 0 < qs.length := List.length_pos.mpr hq
        simp only [List.length_drop]
        omega
      simp only [chunkListF, List.isEmpty_eq_true, hq, if_false, concatAll,
        ih (qs.drop k) hkd, List.take_append_drop]

theorem groupBlocks_join (k : Nat) (hk : 1 ≤ k) (qs : List (List Char)) :
    concatAll (groupBlocks k qs) = qs := by
  unfold groupBlocks
  by_cases h : qs.length ≤ k
  · simp [h, concatAll]
  · simp [h, chunkListF_join k hk qs.length qs (le_refl _)]

/-- C1.  For every extracted text in which at least one question boundary
is detected, concatenating the question blocks of all chunks produced by
the chunk planner, in chunk order, yields exactly the ordered list of
question blocks extracted from the source — no block dropped, none
duplicated, order preserved — for any chunk size `k ≥ 1`; moreover the
string-level `chunkWorksheet` is exactly the block-level plan with each
chunk's blocks joined by a blank line. -/
theorem chunk_planner_complete (text : List Char) (k : Nat) (hk : 1 ≤ k)
    (hb : scanMatches (trim text) ≠ []) :
    concatAll (chunkWorksheetBlocks text k) = questionBlocks (trim text) ∧
    chunkWorksheet text k = (chunkWorksheetBlocks text k).map (interc (str "\n\n")) := by
  have hsrc : trim text ≠ [] := by
    intro h
    apply hb
    rw [h]
    rfl
  constructor
  · unfold chunkWorksheetBlocks
    simp only [hsrc, if_false, hb, if_false]
    exact groupBlocks_join k hk _
  · unfold chunkWorksheet chunkWorksheetBlocks groupBlocks
    simp only [hsrc, if_false, hb, if_false]
    by_cases h : (questionBlocks (trim text)).length ≤ k <;> simp [h]

/-- Witness for C1 at a concrete three-question worksheet with `k = 2`. -/
theorem chunk_planner_complete_witness :
    1 ≤ 2 ∧ scanMatches (trim (str "1. a\n2. b\n3. c")) ≠ [] ∧
    (concatAll (chunkWorksheetBlocks (str "1. a\n2. b\n3. c") 2) =
        questionBlocks (trim (str "1. a\n2. b\n3. c")) ∧
      chunkWorksheet (str "1. a\n2. b\n3. c") 2 =
        (chunkWorksheetBlocks (str "1. a\n2. b\n3. c") 2).map (interc (str "\n\n"))) :=
  ⟨by decide, by decide,
    chunk_planner_complete (str "1. a\n2. b\n3. c") 2 (by decide) (by decide)⟩

/-! ## C10: the pre-boundary preamble is discarded -/

theorem matchNumTail_pos {cs : List Char} {n : Nat} (h : matchNumTail cs = some n) :
    1 ≤ n := by
  unfold matchNumTail at h
  by_cases hd : countWhile isDigitChar cs = 0
  · simp [hd] at h
  · simp only [hd, if_false] at h
    rcases he : cs.drop (countWhile isDigitChar cs) with _ | ⟨c, rest⟩
    · rw [he] at h
      exact absurd h (by simp)
    · rw [he] at h
      by_cases hc : c = '.' ∨ c = ')'
      · simp only [hc, if_true] at h
        by_cases hw : countWhile isJsSpace rest = 0
        · simp [hw] at h
        · simp only [hw, if_false, Option.some.injEq] at h
          omega
      · simp [hc] at h

theorem matchTail_pos {cs : List Char} {n : Nat} (h : matchTail cs = some n) :
    1 ≤ n := by
  simp only [matchTail] at h
  rcases he : cs.drop (countWhile isJsSpace cs) with _ | ⟨c, rest2⟩ <;> rw [he] at h
  · exact absurd h (by simp)
  · by_cases hq : c = 'Q' ∨ c = 'q'
    · simp only [hq, if_true] at h
      rcases hm : matchNumTail (rest2.drop (countWhile isJsSpace rest2)) with _ | m <;>
        rw [hm] at h
      · exact absurd h (by simp)
      · simp only [Option.some.injEq] at h
        omega
    · simp only [hq, if_false, Option.map_eq_some'] at h
      obtain ⟨m, hm, hn⟩ := h
      have := matchNumTail_pos hm
      omega

theorem tryMatchAt_pos {src : List Char} {pos n : Nat}
    (h : tryMatchAt src pos = some n) : 1 ≤ n := by
  unfold tryMatchAt at h
  by_cases hp : pos = 0
  · simp only [hp, if_true] at h
    exact matchTail_pos h
  · simp only [hp, if_false] at h
    split at h
    · simp only [Option.map_eq_some'] at h
      obtain ⟨m, _, hn⟩ := h
      omega
    · exact absurd h (by simp)

theorem scanFromF_ge (src : List Char) :
    ∀ (fuel pos : Nat) (p : Nat × Nat), p ∈ scanFromF src fuel pos → pos ≤ p.1 := by
  intro fuel
  induction fuel with
  | zero => intro pos p h; exact absurd h (by simp [scanFromF])
  | succ n ih =>
    intro pos p h
    unfold scanFromF at h
    by_cases hl : src.length < pos
    · simp [hl] at h
    · simp only [hl, if_false] at h
      rcases hm : tryMatchAt src pos with _ | len <;> rw [hm] at h
      · have := ih (pos + 1) p h
        omega
      · rcases List.mem_cons.mp h with h1 | h2
        · simp [h1]
        · have := ih (pos + len) p h2
          omega

theorem scanFromF_sorted (src : List Char) :
    ∀ (fuel pos : Nat), (scanFromF src fuel pos).Chain' (fun a b => a.1 ≤ b.1) := by
  intro fuel
  induction fuel with
  | zero => intro pos; simp [scanFromF]
  | succ n ih =>
    intro pos
    unfold scanFromF
    by_cases hl : src.length < pos
    · simp [hl]
    · simp only [hl, if_false]
      rcases hm : tryMatchAt src pos with _ | len
      · exact ih (pos + 1)
      · refine List.chain'_cons'.mpr ⟨?_, ih (pos + len)⟩
        intro q hq
        have := scanFromF_ge src n (pos + len) q (List.mem_of_mem_head? hq)
        omega

theorem take_drop_glue (src : List Char) {i j : Nat} (h : i ≤ j) :
    (src.drop i).take (j - i) ++ src.drop j = src.drop i := by
  have : src.drop j = (src.drop i).drop (j - i) := by
    rw [List.drop_drop]
    congr 1
    omega
  rw [this, List.take_append_drop]

theorem join_slicesFrom (src : List Char) :
    ∀ (rest : List (Nat × Nat)) (i l : Nat),
      ((i, l) :: rest).Chain' (fun a b => a.1 ≤ b.1) →
      concatAll (slicesFrom src (((i, l) :: rest).map Prod.fst)) = src.drop i := by
  intro rest
  induction rest with
  | nil => intro i l _; simp [slicesFrom, concatAll]
  | cons q qs ih =>
    intro i l hch
    obtain ⟨hij, hch'⟩ := List.chain'_cons.mp hch
    rcases q with ⟨j, m⟩
    have := ih j m hch'
    simp only [List.map_cons, slicesFrom, concatAll] at this ⊢
    rw [this]
    exact take_drop_glue src hij

/-- C10 (implicit).  When the extracted text contains at least one
question-boundary match, the question blocks are slices of the source
that start at the first boundary index and tile the source exactly up to
its end: concatenating the raw (untrimmed) slices gives `source.drop i₀`,
so the preamble `source.take i₀` before the first boundary reaches no
chunk; and only when no boundary is found at all (and the trimmed text is
non-empty) is the whole text kept as a single one-block chunk. -/
theorem preamble_discarded (text : List Char) :
    (∀ (i l : Nat) (rest : List (Nat × Nat)),
      scanMatches (trim text) = (i, l) :: rest →
      concatAll (slicesFrom (trim text) (((i, l) :: rest).map Prod.fst)) =
        (trim text).drop i) ∧
    (scanMatches (trim text) = [] → trim text ≠ [] →
      ∀ k, chunkWorksheet text k = [trim text]) := by
  constructor
  · intro i l rest hscan
    have hch : ((i, l) :: rest).Chain' (fun a b => a.1 ≤ b.1) := by
      rw [← hscan]
      exact scanFromF_sorted (trim text) _ 0
    exact join_slicesFrom (trim text) rest i l hch
  · intro hscan hne k
    unfold chunkWorksheet
    simp [hne, hscan]

/-- Witness for C10 at a worksheet with a preamble before question 1. -/
theorem preamble_discarded_witness :
    scanMatches (trim (str "intro\n1. a\n2. b")) = [(5, 4), (10, 4)] ∧
    concatAll (slicesFrom (trim (str "intro\n1. a\n2. b"))
        ([(5, 4), (10, 4)].map Prod.fst)) = (trim (str "intro\n1. a\n2. b")).drop 5 ∧
    (scanMatches (trim (str "plain text")) = [] ∧ trim (str "plain text") ≠ [] ∧
      chunkWorksheet (str "plain text") 4 = [trim (str "plain text")]) :=
  ⟨by decide,
   (preamble_discarded (str "intro\n1. a\n2. b")).1 5 4 [(10, 4)] (by decide),
   by decide, by decide,
   (preamble_discarded (str "plain text")).2 (by decide) (by decide) 4⟩

/-! ## C5: job status state machine -/

theorem pipelineTrace_allowed : ∀ e : RunEnv, pipelineTrace e ∈ allowedTraces := by
  intro e
  rcases e with ⟨a, b, c, d, f, g, h, i, j, k, l⟩
  cases a <;> cases b <;> cases c <;> cases d <;> cases f <;> cases g <;>
    cases h <;> cases i <;> cases j <;> cases k <;> cases l <;> decide

theorem pipelineTrace_ready_unique : ∀ e : RunEnv, WStatus.ready ∈ pipelineTrace e →
    pipelineTrace e =
      [WStatus.extracting, WStatus.generating, WStatus.compiling, WStatus.ready] := by
  intro e
  rcases e with ⟨a, b, c, d, f, g, h, i, j, k, l⟩
  cases a <;> cases b <;> cases c <;> cases d <;> cases f <;> cases g <;>
    cases h <;> cases i <;> cases j <;> cases k <;> cases l <;> decide

/-- C5.  A job's persisted status reaches `ready` only through the exact
sequence extracting → generating → compiling → ready; `failed` is
reachable from each of extracting, generating and compiling; and every
trace is a prefix of the success chain, optionally terminated by one
trailing `failed` or by `ready` — so transitions are monotonic along the
chain and `ready`/`failed` are terminal (they only ever occur as the last
persisted status). -/
theorem status_state_machine :
    (∀ e : RunEnv, WStatus.ready ∈ pipelineTrace e →
      pipelineTrace e =
        [WStatus.extracting, WStatus.generating, WStatus.compiling, WStatus.ready]) ∧
    (∃ e : RunEnv, pipelineTrace e = [WStatus.extracting, WStatus.failed]) ∧
    (∃ e : RunEnv, pipelineTrace e =
      [WStatus.extracting, WStatus.generating, WStatus.failed]) ∧
    (∃ e : RunEnv, pipelineTrace e =
      [WStatus.extracting, WStatus.generating, WStatus.compiling, WStatus.failed]) ∧
    (∀ e : RunEnv, pipelineTrace e ∈ allowedTraces) := by
  refine ⟨pipelineTrace_ready_unique, ?_, ?_, ?_, pipelineTrace_allowed⟩
  · exact ⟨⟨true, true, true, true, true, false, true, true, true, true, true⟩, by decide⟩
  · exact ⟨⟨true, true, true, true, true, true, false, true, true, true, true⟩, by decide⟩
  · exact ⟨⟨true, true, true, true, true, true, true, false, true, true, true⟩, by decide⟩

/-- Witness for C5: the all-success run reaches `ready` through the full
chain. -/
theorem status_state_machine_witness :
    WStatus.ready ∈ pipelineTrace allOkEnv ∧
    pipelineTrace allOkEnv =
      [WStatus.extracting, WStatus.generating, WStatus.compiling, WStatus.ready] :=
  ⟨by decide, status_state_machine.1 allOkEnv (by decide)⟩

/-! ## C3: bounded generation recursion -/

theorem invokedDepthsF_bound (api : List Char → List Char) (maxDepth : Nat)
    (program subject chapterName : List Char) :
    ∀ (fuel : Nat) (chunkText : List Char) (includeHeader : Bool) (depth : Nat),
      depth ≤ maxDepth →
      ∀ d ∈ invokedDepthsF api maxDepth program subject chapterName fuel
          chunkText includeHeader depth, d ≤ maxDepth := by
  intro fuel
  induction fuel with
  | zero =>
    intro chunkText includeHeader depth hd d hmem
    simp only [invokedDepthsF, List.mem_singleton] at hmem
    omega
  | succ n ih =>
    intro chunkText includeHeader depth hd d hmem
    simp only [invokedDepthsF] at hmem
    rcases List.mem_cons.mp hmem with h1 | h2
    · omega
    · split at h2
      case isTrue hguard =>
        split at h2
        · exact absurd h2 (by simp)
        case h_2 sc restSc _ =>
          have hd1 : depth + 1 ≤ maxDepth := by omega
          rcases List.mem_append.mp h2 with ha | hb
          · exact ih sc includeHeader (depth + 1) hd1 d ha
          · obtain ⟨sc2, _, hmem2⟩ := mem_concatAll_map.mp hb
            exact ih sc2 false (depth + 1) hd1 d hmem2
      case isFalse => exact absurd h2 (by simp)

theorem generateChunkWithRetriesF_ceiling (api : List Char → List Char)
    (maxDepth : Nat) (program subject chapterName : List Char) :
    ∀ (fuel : Nat) (chunkText : List Char) (includeHeader : Bool) (depth : Nat),
      maxDepth ≤ depth →
      generateChunkWithRetriesF api maxDepth program subject chapterName fuel
          chunkText includeHeader depth =
        cleanGeneratedText
          (api (buildPrompt chunkText program subject chapterName includeHeader)) := by
  intro fuel
  cases fuel with
  | zero => intro chunkText includeHeader depth _; rfl
  | succ n =>
    intro chunkText includeHeader depth hd
    simp only [generateChunkWithRetriesF]
    have : ¬ (0 < countQuestions chunkText ∧
        0 < countQuestions (cleanGeneratedText
          (api (buildPrompt chunkText program subject chapterName includeHeader))) ∧
        countQuestions (cleanGeneratedText
          (api (buildPrompt chunkText program subject chapterName includeHeader))) <
          countQuestions chunkText ∧
        depth < maxDepth) := by
      intro hcon
      omega
    simp only [this, if_false]

/-- C3.  The chunk generation recursion never invokes itself at a depth
exceeding `maxDepth`: every depth in the call tree of a top-level
(depth 0) call is at most `maxDepth` (recursion happens only under the
guard `expected > 0 ∧ 0 < actual < expected ∧ depth < maxDepth`); and once
the depth ceiling is reached, the function returns the cleaned model
output as a value, without recursing or raising. -/
theorem generation_depth_bounded (api : List Char → List Char) (maxDepth : Nat)
    (chunkText program subject chapterName : List Char) (includeHeader : Bool) :
    (∀ d ∈ invokedDepths api maxDepth chunkText program subject chapterName
        includeHeader, d ≤ maxDepth) ∧
    (∀ (chunkText2 : List Char) (includeHeader2 : Bool) (depth : Nat),
      maxDepth ≤ depth →
      generateChunkWithRetries api maxDepth chunkText2 program subject chapterName
          includeHeader2 depth =
        cleanGeneratedText
          (api (buildPrompt chunkText2 program subject chapterName includeHeader2))) := by
  constructor
  · exact fun d h => invokedDepthsF_bound api maxDepth program subject chapterName
      (maxDepth + 1) chunkText includeHeader 0 (Nat.zero_le _) d h
  · intro chunkText2 includeHeader2 depth hd
    exact generateChunkWithRetriesF_ceiling api maxDepth program subject chapterName
      (maxDepth + 1 - depth) chunkText2 includeHeader2 depth hd

/-- Witness for C3: a two-question chunk whose model answer covers only
one question; the recursion splits once and stops at depth 1, and a call
already at the ceiling (depth 2 with `MAX_CHUNK_DEPTH = 2`) returns the
cleaned text unchanged. -/
theorem generation_depth_bounded_witness :
    (1 ∈ invokedDepths (fun _ => str "1. x") 2 (str "1. a\n2. b") [] [] [] true ∧
      (1 : Nat) ≤ 2) ∧
    generateChunkWithRetries (fun _ => str "1. x") 2 (str "1. a\n2. b") [] [] [] true 2 =
      cleanGeneratedText ((fun _ => str "1. x") (buildPrompt (str "1. a\n2. b") [] [] [] true)) := by
  set_option maxRecDepth 40000 in
  refine ⟨⟨by decide, (generation_depth_bounded (fun _ => str "1. x") 2
      (str "1. a\n2. b") [] [] [] true).1 1 (by decide)⟩,
    (generation_depth_bounded (fun _ => str "1. x") 2
      (str "1. a\n2. b") [] [] [] true).2 (str "1. a\n2. b") true 2 (by decide)⟩

/-! ## Line-splitting machinery shared by C6 and C9 -/

theorem splitCR_ne_nil (s : List Char) : splitCR s ≠ [] := by
  induction s using splitCR.induct with
  | case1 => simp [splitCR]
  | case2 rest ih => simp [splitCR]
  | case3 rest ih => simp [splitCR]
  | case4 c rest h1 h2 l ls hs ih => simp [splitCR, h1, h2, hs]
  | case5 c rest h1 h2 hs ih => exact absurd hs ih

theorem splitCR_nl (s : List Char) : splitCR ('\n' :: s) = [] :: splitCR s := rfl

theorem splitCR_crnl (s : List Char) :
    splitCR ('\r' :: '\n' :: s) = [] :: splitCR s := rfl

theorem splitCR_cons_generic (c : Char) (rest : List Char) (h1 : c = '\n' → False)
    (h2 : ∀ r, c = '\r' → rest = '\n' :: r → False) :
    splitCR (c :: rest) = (c :: (splitCR rest).headI) :: (splitCR rest).tail := by
  rcases hs : splitCR rest with _ | ⟨l, ls⟩
  · exact absurd hs (splitCR_ne_nil rest)
  · simp [splitCR, h1, h2, hs]

theorem nl_not_mem_splitCR (s : List Char) : ∀ l ∈ splitCR s, '\n' ∉ l := by
  induction s using splitCR.induct with
  | case1 => simp [splitCR]
  | case2 rest ih => simpa [splitCR] using ih
  | case3 rest ih => simpa [splitCR] using ih
  | case4 c rest h1 h2 l ls hs ih =>
    intro m hm
    rw [splitCR_cons_generic c rest h1 h2, hs] at hm
    simp only [List.headI_cons, List.tail_cons] at hm
    rcases List.mem_cons.mp hm with rfl | hm2
    · intro hnl
      rcases List.mem_cons.mp hnl with hc | hnl2
      · exact h1 hc.symm
      · exact ih l (hs ▸ List.mem_cons_self _ _) hnl2
    · exact ih m (hs ▸ List.mem_cons_of_mem _ hm2)
  | case5 c rest h1 h2 hs ih => exact absurd hs (splitCR_ne_nil rest)

theorem splitCR_of_no_nl (l : List Char) (h : '\n' ∉ l) : splitCR l = [l] := by
  induction l with
  | nil => rfl
  | cons c rest ih =>
    have h1 : c = '\n' → False := fun hc => h (hc ▸ List.mem_cons_self _ _)
    have h2 : ∀ r, c = '\r' → rest = '\n' :: r → False := by
      intro r _ hr
      exact h (List.mem_cons_of_mem _ (hr ▸ List.mem_cons_self _ _))
    rw [splitCR_cons_generic c rest h1 h2,
      ih (fun hm => h (List.mem_cons_of_mem _ hm))]
    rfl

theorem splitCR_append_crnl (a b : List Char) :
    splitCR (a ++ '\r' :: '\n' :: b) = splitCR a ++ splitCR b := by
  induction a using splitCR.induct with
  | case1 => simp [splitCR]
  | case2 rest ih =>
    rw [List.cons_append, splitCR_nl, ih, splitCR_nl, List.cons_append]
  | case3 rest ih =>
    rw [List.cons_append, List.cons_append, splitCR_crnl, ih, splitCR_crnl,
      List.cons_append]
  | case4 c rest h1 h2 l ls hs ih =>
    have h2x : ∀ r, c = '\r' → rest ++ '\r' :: '\n' :: b = '\n' :: r → False := by
      intro r hc hr
      rcases rest with _ | ⟨d, rest2⟩
      · simp at hr
      · have hd : d = '\n' := by
          have := congrArg List.head? hr
          simpa using this
        exact h2 rest2 hc (by rw [hd])
    rw [List.cons_append, splitCR_cons_generic c _ h1 h2x, ih,
      splitCR_cons_generic c rest h1 h2]
    rcases hsr : splitCR rest with _ | ⟨x, xs⟩
    · exact absurd hsr (splitCR_ne_nil rest)
    · simp [hsr]
  | case5 c rest h1 h2 hs ih => exact absurd hs (splitCR_ne_nil rest)

theorem splitCR_append_nl (a b : List Char) (hlast : a.getLast? ≠ some '\r') :
    splitCR (a ++ '\n' :: b) = splitCR a ++ splitCR b := by
  induction a using splitCR.induct with
  | case1 => simp [splitCR]
  | case2 rest ih =>
    have hr : rest.getLast? ≠ some '\r' := by
      rcases rest with _ | ⟨d, rest2⟩
      · simp
      · rwa [List.getLast?_cons_cons] at hlast
    rw [List.cons_append, splitCR_nl, ih hr, splitCR_nl, List.cons_append]
  | case3 rest ih =>
    have hr : rest.getLast? ≠ some '\r' := by
      rcases rest with _ | ⟨d, rest2⟩
      · simp
      · rw [List.getLast?_cons_cons, List.getLast?_cons_cons] at hlast
        exact hlast
    rw [List.cons_append, List.cons_append, splitCR_crnl, ih hr, splitCR_crnl,
      List.cons_append]
  | case4 c rest h1 h2 l ls hs ih =>
    rcases rest with _ | ⟨d, rest2⟩
    · have hcr : c ≠ '\r' := by
        intro hc
        exact hlast (by simp [hc])
      rw [List.singleton_append,
        splitCR_cons_generic c ('\n' :: b) h1 (fun r hcc _ => hcr hcc), splitCR_nl,
        splitCR_cons_generic c [] h1 (by intro r _ hr; simp at hr)]
      simp [splitCR]
    · have hr : (d :: rest2).getLast? ≠ some '\r' := by
        rwa [List.getLast?_cons_cons] at hlast
      have h2x : ∀ r, c = '\r' → (d :: rest2) ++ '\n' :: b = '\n' :: r → False := by
        intro r hc hr2
        have hd : d = '\n' := by
          have := congrArg List.head? hr2
          simpa using this
        exact h2 rest2 hc (by rw [hd])
      rw [List.cons_append, splitCR_cons_generic c _ h1 h2x, ih hr,
        splitCR_cons_generic c (d :: rest2) h1 h2]
      rcases hsr : splitCR (d :: rest2) with _ | ⟨x, xs⟩
      · exact absurd hsr (splitCR_ne_nil _)
      · simp [hsr]
  | case5 c rest h1 h2 hs ih => exact absurd hs (splitCR_ne_nil rest)

theorem splitCR_snoc (a : List Char) (c : Char) (hc : c ≠ '\n') :
    splitCR (a ++ [c]) = modLast (· ++ [c]) (splitCR a) := by
  induction a using splitCR.induct with
  | case1 =>
    have h1 : c = '\n' → False := hc
    rw [List.nil_append, splitCR_cons_generic c [] h1 (by intro r h hr; simp at hr)]
    rfl
  | case2 rest ih =>
    rw [List.cons_append, splitCR_nl, ih, splitCR_nl]
    rcases hsr : splitCR rest with _ | ⟨x, xs⟩
    · exact absurd hsr (splitCR_ne_nil rest)
    · rfl
  | case3 rest ih =>
    rw [List.cons_append, List.cons_append, splitCR_crnl, ih, splitCR_crnl]
    rcases hsr : splitCR rest with _ | ⟨x, xs⟩
    · exact absurd hsr (splitCR_ne_nil rest)
    · rfl
  | case4 cc rest h1 h2 l ls hs ih =>
    have h2x : ∀ r, cc = '\r' → rest ++ [c] = '\n' :: r → False := by
      intro r hcc hr
      rcases rest with _ | ⟨d, rest2⟩
      · simp at hr
        exact hc hr.1
      · have hd : d = '\n' := by
          have := congrArg List.head? hr
          simpa using this
        exact h2 rest2 hcc (by rw [hd])
    rw [List.cons_append, splitCR_cons_generic cc _ h1 h2x, ih,
      splitCR_cons_generic cc rest h1 h2]
    rcases hsr : splitCR rest with _ | ⟨x, xs⟩
    · exact absurd hsr (splitCR_ne_nil rest)
    · rcases xs with _ | ⟨y, ys⟩ <;> rfl
  | case5 cc rest h1 h2 hs ih => exact absurd hs (splitCR_ne_nil rest)

theorem map_modLast {α β : Type _} (F : α → β) (g : α → α)
    (hg : ∀ x, F (g x) = F x) : ∀ l : List α, (modLast g l).map F = l.map F := by
  intro l
  induction l with
  | nil => rfl
  | cons x xs ih =>
    rcases xs with _ | ⟨y, ys⟩
    · simp [modLast, hg]
    · simpa [modLast] using ih

theorem mapF_trimLeft {β : Type _} (F : List Char → β)
    (hc : ∀ c l, isJsSpace c → F (c :: l) = F l) :
    ∀ s : List Char, ∃ a, (splitCR s).map F = a ++ (splitCR (trimLeft s)).map F ∧
      ∀ x ∈ a, x = F [] := by
  intro s
  induction s using splitCR.induct with
  | case1 => exact ⟨[], rfl, by simp⟩
  | case2 rest ih =>
    obtain ⟨a, ha, hall⟩ := ih
    refine ⟨F [] :: a, ?_, ?_⟩
    · rw [splitCR_nl, List.map_cons, ha]
      have : trimLeft ('\n' :: rest) = trimLeft rest := by
        simp [trimLeft, List.dropWhile_cons, isJsSpace]
      rw [this]
      rfl
    · intro x hx
      rcases List.mem_cons.mp hx with rfl | hx2
      · rfl
      · exact hall x hx2
  | case3 rest ih =>
    obtain ⟨a, ha, hall⟩ := ih
    refine ⟨F [] :: a, ?_, ?_⟩
    · have h2 : trimLeft ('\r' :: '\n' :: rest) = trimLeft rest := by
        simp [trimLeft, List.dropWhile_cons, isJsSpace]
      rw [splitCR_crnl, List.map_cons, h2, ha, List.cons_append]
    · intro x hx
      rcases List.mem_cons.mp hx with rfl | hx2
      · rfl
      · exact hall x hx2
  | case4 c rest h1 h2 l ls hs ih =>
    by_cases hw : isJsSpace c
    · obtain ⟨a, ha, hall⟩ := ih
      refine ⟨a, ?_, hall⟩
      have htl : trimLeft (c :: rest) = trimLeft rest := by
        simp [trimLeft, List.dropWhile_cons, hw]
      rw [htl, ← ha, splitCR_cons_generic c rest h1 h2, hs]
      simp only [List.headI_cons, List.tail_cons, List.map_cons]
      rw [hc c l hw]
    · refine ⟨[], ?_, by simp⟩
      have htl : trimLeft (c :: rest) = c :: rest := by
        simp [trimLeft, List.dropWhile_cons, hw]
      rw [htl]
      rfl
  | case5 c rest h1 h2 hs ih => exact absurd hs (splitCR_ne_nil rest)

theorem mapF_snoc_ws {β : Type _} (F : List Char → β)
    (hs : ∀ c l, isJsSpace c → F (l ++ [c]) = F l)
    (t : List Char) (c : Char) (hw : isJsSpace c) :
    ∃ b, (splitCR (t ++ [c])).map F = (splitCR t).map F ++ b ∧ ∀ x ∈ b, x = F [] := by
  by_cases hnl : c = '\n'
  · subst hnl
    by_cases hlast : t.getLast? = some '\r'
    · obtain ⟨t0, ht0⟩ : ∃ t0, t = t0 ++ ['\r'] :=
        ⟨t.dropLast, by conv_lhs => rw [← List.dropLast_append_getLast? '\r' hlast]⟩
      refine ⟨[F []], ?_, by simp⟩
      rw [ht0]
      have e1 : (t0 ++ ['\r']) ++ ['\n'] = t0 ++ '\r' :: '\n' :: [] := by simp
      rw [e1, splitCR_append_crnl, List.map_append,
        splitCR_snoc t0 '\r' (by decide),
        map_modLast F _ (fun x => hs '\r' x (by decide))]
      rfl
    · refine ⟨[F []], ?_, by simp⟩
      have e1 : t ++ ['\n'] = t ++ '\n' :: [] := rfl
      rw [e1, splitCR_append_nl t [] hlast, List.map_append]
      rfl
  · refine ⟨[], ?_, by simp⟩
    rw [splitCR_snoc t c hnl, map_modLast F _ (fun x => hs c x hw), List.append_nil]

theorem mapF_append_ws {β : Type _} (F : List Char → β)
    (hs : ∀ c l, isJsSpace c → F (l ++ [c]) = F l) :
    ∀ (w : List Char), (∀ c ∈ w, isJsSpace c) → ∀ t : List Char,
      ∃ b, (splitCR (t ++ w)).map F = (splitCR t).map F ++ b ∧ ∀ x ∈ b, x = F [] := by
  intro w
  induction w with
  | nil => intro _ t; exact ⟨[], by simp, by simp⟩
  | cons c w2 ih =>
    intro hws t
    have hw : isJsSpace c := hws c (List.mem_cons_self _ _)
    obtain ⟨b1, hb1, hall1⟩ := mapF_snoc_ws F hs t c hw
    obtain ⟨b2, hb2, hall2⟩ := ih (fun d hd => hws d (List.mem_cons_of_mem _ hd)) (t ++ [c])
    refine ⟨b1 ++ b2, ?_, ?_⟩
    · have : t ++ c :: w2 = (t ++ [c]) ++ w2 := by simp
      rw [this, hb2, hb1, List.append_assoc]
    · intro x hx
      rcases List.mem_append.mp hx with h | h
      · exact hall1 x h
      · exact hall2 x h

theorem trimRight_decomp (s : List Char) :
    ∃ w, s = trimRight s ++ w ∧ ∀ c ∈ w, isJsSpace c := by
  refine ⟨(s.reverse.takeWhile isJsSpace).reverse, ?_, ?_⟩
  · conv_lhs => rw [← s.reverse_reverse, ← List.takeWhile_append_dropWhile
      (p := isJsSpace) (l := s.reverse)]
    rw [List.reverse_append]
    rfl
  · intro c hcm
    rw [List.mem_reverse] at hcm
    exact List.mem_takeWhile_imp hcm

theorem mapF_trim {β : Type _} (F : List Char → β)
    (hc : ∀ c l, isJsSpace c → F (c :: l) = F l)
    (hs : ∀ c l, isJsSpace c → F (l ++ [c]) = F l) (s : List Char) :
    ∃ a b, (splitCR s).map F = a ++ (splitCR (trim s)).map F ++ b ∧
      (∀ x ∈ a, x = F []) ∧ (∀ x ∈ b, x = F []) := by
  obtain ⟨a, ha, halla⟩ := mapF_trimLeft F hc s
  obtain ⟨w, hw, hallw⟩ := trimRight_decomp (trimLeft s)
  obtain ⟨b, hb, hallb⟩ := mapF_append_ws F hs w hallw (trimRight (trimLeft s))
  refine ⟨a, b, ?_, halla, hallb⟩
  rw [ha, show trim s = trimRight (trimLeft s) from rfl, List.append_assoc, ← hb, ← hw]

/-! ## C6: merging keeps the banner lines exactly once -/

theorem trimRight_snoc_ws (x : List Char) (c : Char) (hw : isJsSpace c) :
    trimRight (x ++ [c]) = trimRight x := by
  unfold trimRight
  rw [List.reverse_append]
  simp [List.dropWhile_cons, hw]

theorem trim_cons_ws (c : Char) (l : List Char) (hw : isJsSpace c) :
    trim (c :: l) = trim l := by
  unfold trim trimLeft
  rw [List.dropWhile_cons]
  simp [hw]

theorem trim_snoc_ws (c : Char) (l : List Char) (hw : isJsSpace c) :
    trim (l ++ [c]) = trim l := by
  unfold trim
  rcases hE : trimLeft l with _ | ⟨d, dl⟩
  · have h1 : trimLeft (l ++ [c]) = trimLeft [c] := by
      unfold trimLeft at hE ⊢
      rw [List.dropWhile_append, hE]
      simp
    rw [h1]
    simp [trimLeft, List.dropWhile_cons, hw, trimRight]
  · have h1 : trimLeft (l ++ [c]) = trimLeft l ++ [c] := by
      unfold trimLeft at hE ⊢
      rw [List.dropWhile_append, hE]
      simp
    rw [h1, trimRight_snoc_ws _ _ hw, hE]

theorem isBannerLine_cons_ws (c : Char) (l : List Char) (hw : isJsSpace c) :
    isBannerLine (c :: l) = isBannerLine l := by
  unfold isBannerLine
  rw [trim_cons_ws c l hw]

theorem isBannerLine_snoc_ws (c : Char) (l : List Char) (hw : isJsSpace c) :
    isBannerLine (l ++ [c]) = isBannerLine l := by
  unfold isBannerLine
  rw [trim_snoc_ws c l hw]

theorem filterLength_eq_count {α : Type _} (p : α → Bool) (L : List α) :
    (L.filter p).length = (L.map p).count true := by
  induction L with
  | nil => rfl
  | cons x xs ih =>
    by_cases hx : p x = true
    · simp [List.filter_cons, hx, ih, List.count_cons]
    · have hx2 : p x = false := by simpa using hx
      simp [List.filter_cons, hx2, ih, List.count_cons]

theorem countBanner_eq_count (s : List Char) :
    countBanner s = ((splitCR s).map (fun l => isBannerLine l)).count true := by
  unfold countBanner
  exact filterLength_eq_count _ _

theorem count_true_eq_zero {b : List Bool} (h : ∀ x ∈ b, x = false) :
    b.count true = 0 := by
  rw [List.count_eq_zero]
  intro hmem
  exact absurd (h true hmem) (by simp)

theorem countBanner_trim (s : List Char) : countBanner (trim s) = countBanner s := by
  obtain ⟨a, b, hdec, halla, hallb⟩ := mapF_trim (fun l => isBannerLine l)
    (fun c l hw => isBannerLine_cons_ws c l hw)
    (fun c l hw => isBannerLine_snoc_ws c l hw) s
  have hfe : (fun l => isBannerLine l) ([] : List Char) = false := by decide
  have ha0 : a.count true = 0 :=
    count_true_eq_zero (fun x hx => by rw [halla x hx]; exact hfe)
  have hb0 : b.count true = 0 :=
    count_true_eq_zero (fun x hx => by rw [hallb x hx]; exact hfe)
  rw [countBanner_eq_count, countBanner_eq_count, hdec]
  simp only [List.count_append]
  omega

theorem countBanner_cons_nl (t : List Char) :
    countBanner ('\n' :: t) = countBanner t := by
  unfold countBanner
  rw [splitCR_nl, List.filter_cons]
  simp [show isBannerLine [] = false from by decide]

theorem countBanner_append_nl (a b : List Char) :
    countBanner (a ++ '\n' :: b) = countBanner a + countBanner b := by
  by_cases hlast : a.getLast? = some '\r'
  · obtain ⟨t0, ht0⟩ : ∃ t0, a = t0 ++ ['\r'] :=
      ⟨a.dropLast, by conv_lhs => rw [← List.dropLast_append_getLast? '\r' hlast]⟩
    have e1 : a ++ '\n' :: b = t0 ++ '\r' :: '\n' :: b := by rw [ht0]; simp
    have e2 : countBanner a = countBanner t0 := by
      rw [countBanner_eq_count, countBanner_eq_count, ht0,
        splitCR_snoc t0 '\r' (by decide),
        map_modLast _ _ (fun x => isBannerLine_snoc_ws '\r' x (by decide))]
    rw [e1, e2]
    unfold countBanner
    rw [splitCR_append_crnl, List.filter_append, List.length_append]
  · unfold countBanner
    rw [splitCR_append_nl a b hlast, List.filter_append, List.length_append]

theorem countBanner_single (l : List Char) (h : '\n' ∉ l) :
    countBanner l = if isBannerLine l then 1 else 0 := by
  unfold countBanner
  rw [splitCR_of_no_nl l h]
  by_cases hb : isBannerLine l <;> simp [List.filter_cons, hb]

theorem countBanner_interc_nn_zero :
    ∀ (ls : List (List Char)), (∀ l ∈ ls, countBanner l = 0) →
      ∀ x, countBanner (interc (str "\n\n") (x :: ls)) = countBanner x := by
  intro ls
  induction ls with
  | nil => intro _ x; rfl
  | cons l ls2 ih =>
    intro hz x
    have e1 : interc (str "\n\n") (x :: l :: ls2) =
        x ++ '\n' :: ('\n' :: interc (str "\n\n") (l :: ls2)) := by
      show x ++ str "\n\n" ++ interc (str "\n\n") (l :: ls2) = _
      simp [str]
    rw [e1, countBanner_append_nl, countBanner_cons_nl,
      ih (fun m hm => hz m (List.mem_cons_of_mem _ hm)) l,
      hz l (List.mem_cons_self _ _)]
    omega

theorem countBanner_interc_nl_zero :
    ∀ (ls : List (List Char)), (∀ l ∈ ls, '\n' ∉ l) →
      (∀ l ∈ ls, isBannerLine l = false) →
      countBanner (interc (str "\n") ls) = 0 := by
  intro ls
  induction ls with
  | nil => intro _ _; decide
  | cons l ls2 ih =>
    intro hnl hbl
    rcases ls2 with _ | ⟨l2, ls3⟩
    · show countBanner l = 0
      rw [countBanner_single l (hnl l (List.mem_cons_self _ _)),
        hbl l (List.mem_cons_self _ _)]
      rfl
    · have e1 : interc (str "\n") (l :: l2 :: ls3) =
          l ++ '\n' :: interc (str "\n") (l2 :: ls3) := by
        show l ++ str "\n" ++ interc (str "\n") (l2 :: ls3) = _
        simp [str]
      rw [e1, countBanner_append_nl,
        countBanner_single l (hnl l (List.mem_cons_self _ _)),
        hbl l (List.mem_cons_self _ _),
        ih (fun m hm => hnl m (List.mem_cons_of_mem _ hm))
          (fun m hm => hbl m (List.mem_cons_of_mem _ hm))]
      rfl

theorem stripHeader_countBanner (t : List Char) :
    countBanner (stripHeader t) = 0 := by
  unfold stripHeader
  rw [countBanner_trim]
  apply countBanner_interc_nl_zero
  · intro l hl
    exact nl_not_mem_splitCR t l (List.mem_filter.mp hl).1
  · intro l hl
    have := (List.mem_filter.mp hl).2
    simpa using this

/-- C6.  Merging chunk outputs strips the header-banner lines (title line,
answer-key line, `Worksheet:`-prefixed and `Syllabus Topics Covered:`-
prefixed lines) from every output after the first and keeps the first
unstripped, so the merged result contains exactly as many banner lines as
the first output: when the first output carries the banner once, the
merged result contains it exactly once, coming from the first output
only; every stripped output contributes zero banner lines. -/
theorem merge_banner_once :
    (∀ (first : List Char) (rest : List (List Char)),
      countBanner (mergeChunkOutputs (first :: rest)) = countBanner first) ∧
    (∀ t : List Char, countBanner (stripHeader t) = 0) := by
  refine ⟨?_, stripHeader_countBanner⟩
  intro first rest
  unfold mergeChunkOutputs
  rw [countBanner_trim]
  apply countBanner_interc_nn_zero
  intro l hl
  obtain ⟨hmem, _⟩ := List.mem_filter.mp hl
  obtain ⟨r, _, rfl⟩ := List.mem_map.mp hmem
  exact stripHeader_countBanner r

/-! ## C9: duplicate-line collapsing -/

theorem normLine_cons_ws (c : Char) (l : List Char) (hw : isJsSpace c) :
    normLine (c :: l) = normLine l := by
  unfold normLine
  rw [trim_cons_ws c l hw]

theorem normLine_snoc_ws (c : Char) (l : List Char) (hw : isJsSpace c) :
    normLine (l ++ [c]) = normLine l := by
  unfold normLine
  rw [trim_snoc_ws c l hw]

theorem dedupGo_head : ∀ (ls : List (List Char)) (last m : List Char),
    (dedupGo last ls).head? = some m → ¬(normLine m ≠ [] ∧ normLine m = last) := by
  intro ls
  induction ls with
  | nil => intro last m h; simp [dedupGo] at h
  | cons l rest ih =>
    intro last m h
    by_cases hc : normLine l ≠ [] ∧ normLine l = last
    · rw [show dedupGo last (l :: rest) = dedupGo last rest from by
        simp only [dedupGo]; rw [if_pos hc]] at h
      exact ih last m h
    · rw [show dedupGo last (l :: rest) = l :: dedupGo (normLine l) rest from by
        simp only [dedupGo]; rw [if_neg hc]] at h
      simp only [List.head?_cons, Option.some.injEq] at h
      subst h
      exact hc

theorem dedupGo_chain : ∀ (ls : List (List Char)) (last : List Char),
    (dedupGo last ls).Chain'
      (fun a b => ¬(normLine b ≠ [] ∧ normLine b = normLine a)) := by
  intro ls
  induction ls with
  | nil => intro last; simp [dedupGo]
  | cons l rest ih =>
    intro last
    by_cases hc : normLine l ≠ [] ∧ normLine l = last
    · rw [show dedupGo last (l :: rest) = dedupGo last rest from by
        simp only [dedupGo]; rw [if_pos hc]]
      exact ih last
    · rw [show dedupGo last (l :: rest) = l :: dedupGo (normLine l) rest from by
        simp only [dedupGo]; rw [if_neg hc]]
      refine List.chain'_cons'.mpr ⟨?_, ih (normLine l)⟩
      intro m hm
      exact dedupGo_head rest (normLine l) m hm

theorem dedupGo_mem : ∀ (ls : List (List Char)) (last x : List Char),
    x ∈ dedupGo last ls → x ∈ ls := by
  intro ls
  induction ls with
  | nil => intro last x h; simp [dedupGo] at h
  | cons l rest ih =>
    intro last x h
    by_cases hc : normLine l ≠ [] ∧ normLine l = last
    · rw [show dedupGo last (l :: rest) = dedupGo last rest from by
        simp only [dedupGo]; rw [if_pos hc]] at h
      exact List.mem_cons_of_mem _ (ih last x h)
    · rw [show dedupGo last (l :: rest) = l :: dedupGo (normLine l) rest from by
        simp only [dedupGo]; rw [if_neg hc]] at h
      rcases List.mem_cons.mp h with rfl | h2
      · exact List.mem_cons_self _ _
      · exact List.mem_cons_of_mem _ (ih (normLine l) x h2)

theorem mapNorm_interc : ∀ (ls : List (List Char)), (∀ l ∈ ls, '\n' ∉ l) →
    ls ≠ [] →
    (splitCR (interc (str "\n") ls)).map normLine = ls.map normLine := by
  intro ls
  induction ls with
  | nil => intro _ h; exact absurd rfl h
  | cons l rest ih =>
    intro hnl _
    rcases rest with _ | ⟨l2, rest2⟩
    · show (splitCR l).map normLine = [normLine l]
      rw [splitCR_of_no_nl l (hnl l (List.mem_cons_self _ _))]
      rfl
    · have e1 : interc (str "\n") (l :: l2 :: rest2) =
          l ++ '\n' :: interc (str "\n") (l2 :: rest2) := by
        show l ++ str "\n" ++ interc (str "\n") (l2 :: rest2) = _
        simp [str]
      rw [e1]
      have ihr := ih (fun m hm => hnl m (List.mem_cons_of_mem _ hm)) (by simp)
      by_cases hlast : l.getLast? = some '\r'
      · obtain ⟨t0, ht0⟩ : ∃ t0, l = t0 ++ ['\r'] :=
          ⟨l.dropLast, by conv_lhs => rw [← List.dropLast_append_getLast? '\r' hlast]⟩
        have e2 : l ++ '\n' :: interc (str "\n") (l2 :: rest2) =
            t0 ++ '\r' :: '\n' :: interc (str "\n") (l2 :: rest2) := by
          rw [ht0]; simp
        have hnt0 : '\n' ∉ t0 := by
          intro hm
          exact hnl l (List.mem_cons_self _ _) (ht0 ▸ List.mem_append_left _ hm)
        rw [e2, splitCR_append_crnl, List.map_append, splitCR_of_no_nl t0 hnt0, ihr]
        have : normLine t0 = normLine l := by
          rw [ht0, normLine_snoc_ws '\r' t0 (by decide)]
        simp [this]
      · rw [splitCR_append_nl l _ hlast, List.map_append,
          splitCR_of_no_nl l (hnl l (List.mem_cons_self _ _)), ihr]
        rfl

/-- C9, counterexample.  The specification claims the duplicate-line
collapse compares lines case-insensitively; the code compares
`line.trim().replace(/\s+/g, ' ')` without case folding, so the
consecutive lines `A` and `a` — equal under the claimed case-folded
normalization — are both kept, and the cleaned output still contains a
consecutive pair of case-insensitively equal lines. -/
theorem removeDuplicateLines_case_counterexample :
    ¬ (splitCR (removeDuplicateLines (str "A\na"))).Chain'
        (fun a b => normFoldLine a ≠ normFoldLine b) := by
  intro h
  have he : splitCR (removeDuplicateLines (str "A\na")) = [str "A", str "a"] := by
    decide
  rw [he] at h
  exact (List.chain'_cons.mp h).1 (by decide)

theorem dedupGo_init_ne_nil (l : List Char) (rest : List (List Char)) :
    dedupGo [] (l :: rest) ≠ [] := by
  simp only [dedupGo]
  rw [if_neg (by simp)]
  simp

/-- C9, amended.  Cleaning collapses consecutive duplicate lines under
the case-sensitive whitespace normalization `line.trim().replace(/\s+/g, ' ')`,
and only for lines whose normalization is non-blank: in the output of
`removeDuplicateLines`, any two consecutive lines either have a blank
normalization (blank lines are never collapsed) or differ in their
normalized forms. -/
theorem removeDuplicateLines_no_consecutive_duplicates (x : List Char) :
    (splitCR (removeDuplicateLines x)).Chain'
      (fun a b => normLine b = [] ∨ normLine b ≠ normLine a) := by
  have hLne : splitCR x ≠ [] := splitCR_ne_nil x
  obtain ⟨l0, L', hL⟩ : ∃ l0 L', splitCR x = l0 :: L' := by
    rcases h : splitCR x with _ | ⟨l0, L'⟩
    · exact absurd h hLne
    · exact ⟨l0, L', rfl⟩
  set pushed := dedupGo [] (splitCR x) with hpushed
  have hpne : pushed ≠ [] := by
    rw [hpushed, hL]
    exact dedupGo_init_ne_nil l0 L'
  have hpnl : ∀ l ∈ pushed, '\n' ∉ l := by
    intro l hl
    exact nl_not_mem_splitCR x l (dedupGo_mem (splitCR x) [] l hl)
  have hinterc : (splitCR (interc (str "\n") pushed)).map normLine =
      pushed.map normLine := mapNorm_interc pushed hpnl hpne
  obtain ⟨a, b, hdec, _, _⟩ := mapF_trim normLine
    (fun c l hw => normLine_cons_ws c l hw)
    (fun c l hw => normLine_snoc_ws c l hw) (interc (str "\n") pushed)
  have hchain : (pushed.map normLine).Chain'
      (fun u v => ¬(v ≠ [] ∧ v = u)) := by
    rw [List.chain'_map]
    exact dedupGo_chain (splitCR x) []
  have hchain2 : ((splitCR (removeDuplicateLines x)).map normLine).Chain'
      (fun u v => ¬(v ≠ [] ∧ v = u)) := by
    apply List.Chain'.infix (l := (splitCR (interc (str "\n") pushed)).map normLine)
    · rw [hinterc]
      exact hchain
    · exact ⟨a, b, by
        rw [show removeDuplicateLines x = trim (interc (str "\n") pushed) from rfl,
          ← hdec]⟩
  have hchain3 := (List.chain'_map normLine).mp hchain2
  exact hchain3.imp (fun u v h => by tauto)

/-- Witness check for the C9 counterexample input: the cleaner keeps both
lines, and their case-folded normalizations agree. -/
theorem removeDuplicateLines_case_counterexample_data :
    removeDuplicateLines (str "A\na") = str "A\na" ∧
    normFoldLine (str "A") = normFoldLine (str "a") := by
  decide

/-! ## C2: normalizer idempotence -/

/-- C2, counterexample.  `normalizeMathText` is not idempotent: the
newline-joining replace `/\n(?=[a-zA-Z])(?<=[a-zA-Z0-9])/` has no `g`
flag and removes only the first qualifying newline, so a second
application of the normalizer merges a further line:
`normalize("a\nb\nc") = "ab\nc"` but `normalize(normalize("a\nb\nc")) = "abc"`. -/
theorem normalizeMathText_not_idempotent :
    normalizeMathText (normalizeMathText (str "a\nb\nc")) ≠
      normalizeMathText (str "a\nb\nc") := by
  decide

theorem char_toNat_ofNat (n : Nat) (h : n < 0xD800) : (Char.ofNat n).toNat = n := by
  unfold Char.ofNat
  rw [dif_pos (Or.inl h)]
  rfl

theorem mathAlphanumChar_ascii (c : Char) (h : c.toNat < 0x1D434) :
    mathAlphanumChar c = [c] := by
  simp only [mathAlphanumChar]
  rw [if_neg (by omega), if_neg (by omega), if_neg (by omega), if_neg (by omega), if_neg (by omega), if_neg (by omega), if_neg (by omega), if_neg (by omega), if_neg (by omega), if_neg (by omega), if_neg (by omega), if_neg (by omega), if_neg (by omega), if_neg (by omega), if_neg (by omega)]

theorem cmap_mathAlphanumChar_singleton (d : Char) (hd : d.toNat < 0x1D434) :
    cmap mathAlphanumChar [d] = [d] := by
  rw [cmap_cons, cmap_nil, List.append_nil, mathAlphanumChar_ascii d hd]

theorem mathAlphanumChar_stable (c : Char) :
    cmap mathAlphanumChar (mathAlphanumChar c) = mathAlphanumChar c := by
  by_cases h1 : 0x1D434 ≤ c.toNat ∧ c.toNat ≤ 0x1D44D
  · have e : mathAlphanumChar c =
        [Char.ofNat (c.toNat - (0x1D434 - 0x41))] := by
      simp only [mathAlphanumChar]
      rw [if_pos h1]
    rw [e, cmap_mathAlphanumChar_singleton _
      (by rw [char_toNat_ofNat _ (by omega)]; omega)]
  by_cases h2 : 0x1D44E ≤ c.toNat ∧ c.toNat ≤ 0x1D467
  · have e : mathAlphanumChar c =
        [Char.ofNat (c.toNat - (0x1D44E - 0x61))] := by
      simp only [mathAlphanumChar]
      rw [if_neg h1, if_pos h2]
    rw [e, cmap_mathAlphanumChar_singleton _
      (by rw [char_toNat_ofNat _ (by omega)]; omega)]
  by_cases h3 : 0x1D468 ≤ c.toNat ∧ c.toNat ≤ 0x1D481
  · have e : mathAlphanumChar c =
        [Char.ofNat (c.toNat - (0x1D468 - 0x41))] := by
      simp only [mathAlphanumChar]
      rw [if_neg h1, if_neg h2, if_pos h3]
    rw [e, cmap_mathAlphanumChar_singleton _
      (by rw [char_toNat_ofNat _ (by omega)]; omega)]
  by_cases h4 : 0x1D482 ≤ c.toNat ∧ c.toNat ≤ 0x1D49B
  · have e : mathAlphanumChar c =
        [Char.ofNat (c.toNat - (0x1D482 - 0x61))] := by
      simp only [mathAlphanumChar]
      rw [if_neg h1, if_neg h2, if_neg h3, if_pos h4]
    rw [e, cmap_mathAlphanumChar_singleton _
      (by rw [char_toNat_ofNat _ (by omega)]; omega)]
  by_cases h5 : 0x1D49C ≤ c.toNat ∧ c.toNat ≤ 0x1D4B5
  · have e : mathAlphanumChar c =
        [Char.ofNat (c.toNat - (0x1D49C - 0x41))] := by
      simp only [mathAlphanumChar]
      rw [if_neg h1, if_neg h2, if_neg h3, if_neg h4, if_pos h5]
    rw [e, cmap_mathAlphanumChar_singleton _
      (by rw [char_toNat_ofNat _ (by omega)]; omega)]
  by_cases h6 : 0x1D4B6 ≤ c.toNat ∧ c.toNat ≤ 0x1D4CF
  · have e : mathAlphanumChar c =
        [Char.ofNat (c.toNat - (0x1D4B6 - 0x61))] := by
      simp only [mathAlphanumChar]
      rw [if_neg h1, if_neg h2, if_neg h3, if_neg h4, if_neg h5, if_pos h6]
    rw [e, cmap_mathAlphanumChar_singleton _
      (by rw [char_toNat_ofNat _ (by omega)]; omega)]
  by_cases h7 : 0x1D4D0 ≤ c.toNat ∧ c.toNat ≤ 0x1D4E9
  · have e : mathAlphanumChar c =
        [Char.ofNat (c.toNat - (0x1D4D0 - 0x41))] := by
      simp only [mathAlphanumChar]
      rw [if_neg h1, if_neg h2, if_neg h3, if_neg h4, if_neg h5, if_neg h6, if_pos h7]
    rw [e, cmap_mathAlphanumChar_singleton _
      (by rw [char_toNat_ofNat _ (by omega)]; omega)]
  by_cases h8 : 0x1D4EA ≤ c.toNat ∧ c.toNat ≤ 0x1D503
  · have e : mathAlphanumChar c =
        [Char.ofNat (c.toNat - (0x1D4EA - 0x61))] := by
      simp only [mathAlphanumChar]
      rw [if_neg h1, if_neg h2, if_neg h3, if_neg h4, if_neg h5, if_neg h6, if_neg h7, if_pos h8]
    rw [e, cmap_mathAlphanumChar_singleton _
      (by rw [char_toNat_ofNat _ (by omega)]; omega)]
  by_cases h9 : 0x1D504 ≤ c.toNat ∧ c.toNat ≤ 0x1D51C
  · have e : mathAlphanumChar c =
        [Char.ofNat (c.toNat - (0x1D504 - 0x41))] := by
      simp only [mathAlphanumChar]
      rw [if_neg h1, if_neg h2, if_neg h3, if_neg h4, if_neg h5, if_neg h6, if_neg h7, if_neg h8, if_pos h9]
    rw [e, cmap_mathAlphanumChar_singleton _
      (by rw [char_toNat_ofNat _ (by omega)]; omega)]
  by_cases h10 : 0x1D51E ≤ c.toNat ∧ c.toNat ≤ 0x1D537
  · have e : mathAlphanumChar c =
        [Char.ofNat (c.toNat - (0x1D51E - 0x61))] := by
      simp only [mathAlphanumChar]
      rw [if_neg h1, if_neg h2, if_neg h3, if_neg h4, if_neg h5, if_neg h6, if_neg h7, if_neg h8, if_neg h9, if_pos h10]
    rw [e, cmap_mathAlphanumChar_singleton _
      (by rw [char_toNat_ofNat _ (by omega)]; omega)]
  by_cases h11 : 0x1D538 ≤ c.toNat ∧ c.toNat ≤ 0x1D551
  · have e : mathAlphanumChar c =
        [Char.ofNat (c.toNat - (0x1D538 - 0x41))] := by
      simp only [mathAlphanumChar]
      rw [if_neg h1, if_neg h2, if_neg h3, if_neg h4, if_neg h5, if_neg h6, if_neg h7, if_neg h8, if_neg h9, if_neg h10, if_pos h11]
    rw [e, cmap_mathAlphanumChar_singleton _
      (by rw [char_toNat_ofNat _ (by omega)]; omega)]
  by_cases h12 : 0x1D552 ≤ c.toNat ∧ c.toNat ≤ 0x1D56B
  · have e : mathAlphanumChar c =
        [Char.ofNat (c.toNat - (0x1D552 - 0x61))] := by
      simp only [mathAlphanumChar]
      rw [if_neg h1, if_neg h2, if_neg h3, if_neg h4, if_neg h5, if_neg h6, if_neg h7, if_neg h8, if_neg h9, if_neg h10, if_neg h11, if_pos h12]
    rw [e, cmap_mathAlphanumChar_singleton _
      (by rw [char_toNat_ofNat _ (by omega)]; omega)]
  by_cases h13 : 0x1D56C ≤ c.toNat ∧ c.toNat ≤ 0x1D585
  · have e : mathAlphanumChar c =
        [Char.ofNat (c.toNat - (0x1D56C - 0x41))] := by
      simp only [mathAlphanumChar]
      rw [if_neg h1, if_neg h2, if_neg h3, if_neg h4, if_neg h5, if_neg h6, if_neg h7, if_neg h8, if_neg h9, if_neg h10, if_neg h11, if_neg h12, if_pos h13]
    rw [e, cmap_mathAlphanumChar_singleton _
      (by rw [char_toNat_ofNat _ (by omega)]; omega)]
  by_cases h14 : 0x1D586 ≤ c.toNat ∧ c.toNat ≤ 0x1D59F
  · have e : mathAlphanumChar c =
        [Char.ofNat (c.toNat - (0x1D586 - 0x61))] := by
      simp only [mathAlphanumChar]
      rw [if_neg h1, if_neg h2, if_neg h3, if_neg h4, if_neg h5, if_neg h6, if_neg h7, if_neg h8, if_neg h9, if_neg h10, if_neg h11, if_neg h12, if_neg h13, if_pos h14]
    rw [e, cmap_mathAlphanumChar_singleton _
      (by rw [char_toNat_ofNat _ (by omega)]; omega)]
  by_cases h15 : 0x1D7CE ≤ c.toNat ∧ c.toNat ≤ 0x1D7D7
  · have e : mathAlphanumChar c =
        [Char.ofNat (c.toNat - 0x1D7CE + 0x30)] := by
      simp only [mathAlphanumChar]
      rw [if_neg h1, if_neg h2, if_neg h3, if_neg h4, if_neg h5, if_neg h6, if_neg h7, if_neg h8, if_neg h9, if_neg h10, if_neg h11, if_neg h12, if_neg h13, if_neg h14, if_pos h15]
    rw [e, cmap_mathAlphanumChar_singleton _
      (by rw [char_toNat_ofNat _ (by omega)]; omega)]
  have e : mathAlphanumChar c = [c] := by
    simp only [mathAlphanumChar]
    rw [if_neg h1, if_neg h2, if_neg h3, if_neg h4, if_neg h5, if_neg h6, if_neg h7, if_neg h8, if_neg h9, if_neg h10, if_neg h11, if_neg h12, if_neg h13, if_neg h14, if_neg h15]
  rw [e, cmap_cons, cmap_nil, List.append_nil]
  exact e

/-- C2, amended.  While `normalizeMathText` itself is not idempotent, its
character-folding pass `mapMathAlphanum` is: folding the mathematical
alphanumeric symbols block to ASCII twice equals folding once, for every
input. -/
theorem mapMathAlphanum_idempotent (s : List Char) :
    mapMathAlphanum (mapMathAlphanum s) = mapMathAlphanum s := by
  unfold mapMathAlphanum
  induction s with
  | nil => rfl
  | cons c rest ih =>
    rw [cmap_cons, cmap_append, ih, mathAlphanumChar_stable]

/-! ## C4: escaping engine -/

theorem escapeLatexText_append (a b : List Char) :
    escapeLatexText (a ++ b) = escapeLatexText a ++ escapeLatexText b := by
  simp only [escapeLatexText, replaceUnicodeTextSymbols, replaceChar_append]

theorem replaceUnicodeMathSymbols_append (a b : List Char) :
    replaceUnicodeMathSymbols (a ++ b) =
      replaceUnicodeMathSymbols a ++ replaceUnicodeMathSymbols b := by
  simp only [replaceUnicodeMathSymbols, replaceChar_append]

theorem replaceChar_single_ne (t : Char) (r : List Char) (c : Char) (h : ¬ c = t) :
    replaceChar t r [c] = [c] := by
  simp [replaceChar, cmap, concatAll, h]

theorem escapeLatexText_char (c : Char) : escapeLatexText [c] = escCharTable c := by
  by_cases h1 : c = '≤'
  · subst h1; decide
  by_cases h2 : c = '≥'
  · subst h2; decide
  by_cases h3 : c = '≠'
  · subst h3; decide
  by_cases h4 : c = '≈'
  · subst h4; decide
  by_cases h5 : c = '±'
  · subst h5; decide
  by_cases h6 : c = '×'
  · subst h6; decide
  by_cases h7 : c = '÷'
  · subst h7; decide
  by_cases h8 : c = 'π'
  · subst h8; decide
  by_cases h9 : c = '∞'
  · subst h9; decide
  by_cases h10 : c = '\\'
  · subst h10; decide
  by_cases h11 : c = '&'
  · subst h11; decide
  by_cases h12 : c = '%'
  · subst h12; decide
  by_cases h13 : c = '$'
  · subst h13; decide
  by_cases h14 : c = '#'
  · subst h14; decide
  by_cases h15 : c = '_'
  · subst h15; decide
  by_cases h16 : c = lbrace
  · subst h16; decide
  by_cases h17 : c = rbrace
  · subst h17; decide
  by_cases h18 : c = '~'
  · subst h18; decide
  by_cases h19 : c = '^'
  · subst h19; decide
  unfold escapeLatexText replaceUnicodeTextSymbols
  rw [replaceChar_single_ne '≤' _ c h1, replaceChar_single_ne '≥' _ c h2, replaceChar_single_ne '≠' _ c h3, replaceChar_single_ne '≈' _ c h4, replaceChar_single_ne '±' _ c h5, replaceChar_single_ne '×' _ c h6, replaceChar_single_ne '÷' _ c h7, replaceChar_single_ne 'π' _ c h8, replaceChar_single_ne '∞' _ c h9, replaceChar_single_ne '\\' _ c h10, replaceChar_single_ne '&' _ c h11, replaceChar_single_ne '%' _ c h12, replaceChar_single_ne '$' _ c h13, replaceChar_single_ne '#' _ c h14, replaceChar_single_ne '_' _ c h15, replaceChar_single_ne lbrace _ c h16, replaceChar_single_ne rbrace _ c h17, replaceChar_single_ne '~' _ c h18, replaceChar_single_ne '^' _ c h19]
  simp only [escCharTable]
  rw [if_neg h1, if_neg h2, if_neg h3, if_neg h4, if_neg h5, if_neg h6, if_neg h7, if_neg h8, if_neg h9, if_neg h10, if_neg h11, if_neg h12, if_neg h13, if_neg h14, if_neg h15, if_neg h16, if_neg h17, if_neg h18, if_neg h19]

theorem replaceUnicodeMathSymbols_char (c : Char) :
    replaceUnicodeMathSymbols [c] = mathSymTable c := by
  by_cases g1 : c = '≤'
  · subst g1; decide
  by_cases g2 : c = '≥'
  · subst g2; decide
  by_cases g3 : c = '≠'
  · subst g3; decide
  by_cases g4 : c = '≈'
  · subst g4; decide
  by_cases g5 : c = '±'
  · subst g5; decide
  by_cases g6 : c = '×'
  · subst g6; decide
  by_cases g7 : c = '÷'
  · subst g7; decide
  by_cases g8 : c = 'π'
  · subst g8; decide
  by_cases g9 : c = '∞'
  · subst g9; decide
  unfold replaceUnicodeMathSymbols
  rw [replaceChar_single_ne '≤' _ c g1, replaceChar_single_ne '≥' _ c g2, replaceChar_single_ne '≠' _ c g3, replaceChar_single_ne '≈' _ c g4, replaceChar_single_ne '±' _ c g5, replaceChar_single_ne '×' _ c g6, replaceChar_single_ne '÷' _ c g7, replaceChar_single_ne 'π' _ c g8, replaceChar_single_ne '∞' _ c g9]
  simp only [mathSymTable]
  rw [if_neg g1, if_neg g2, if_neg g3, if_neg g4, if_neg g5, if_neg g6, if_neg g7, if_neg g8, if_neg g9]

theorem escapeLatexText_eq_cmap (s : List Char) :
    escapeLatexText s = cmap escCharTable s := by
  induction s with
  | nil => rfl
  | cons c rest ih =>
    have e : (c :: rest) = [c] ++ rest := rfl
    rw [e, escapeLatexText_append, escapeLatexText_char, ih, cmap_append]
    simp [cmap, concatAll]

theorem replaceUnicodeMathSymbols_eq_cmap (s : List Char) :
    replaceUnicodeMathSymbols s = cmap mathSymTable s := by
  induction s with
  | nil => rfl
  | cons c rest ih =>
    have e : (c :: rest) = [c] ++ rest := rfl
    rw [e, replaceUnicodeMathSymbols_append, replaceUnicodeMathSymbols_char, ih,
      cmap_append]
    simp [cmap, concatAll]

/-- C4.  The escaping engine treats math and prose spans differently,
character by character: the prose escape `escapeLatexText` is exactly the
character-wise substitution `escCharTable`, which maps each of the nine
reserved characters `& % $ # _ { } ~ ^` to its escaped form; the math-span
pass `replaceUnicodeMathSymbols` is exactly the character-wise
substitution `mathSymTable`, which maps every reserved character to
itself (only unicode math symbols are substituted); and
`escapeLatexTextPreservingMath` applies the former to non-math parts and
the latter to the parts its splitter delimits as math. -/
theorem escaping_respects_math_spans :
    (∀ s, escapeLatexText s = cmap escCharTable s) ∧
    (escCharTable '&' = str "\\&" ∧ escCharTable '%' = str "\\%" ∧
     escCharTable '$' = str "\\$" ∧ escCharTable '#' = str "\\#" ∧
     escCharTable '_' = str "\\_" ∧ escCharTable lbrace = ['\\', lbrace] ∧
     escCharTable rbrace = ['\\', rbrace] ∧
     escCharTable '~' = str "\\textasciitilde" ++ [lbrace, rbrace] ∧
     escCharTable '^' = str "\\textasciicircum" ++ [lbrace, rbrace]) ∧
    (∀ s, replaceUnicodeMathSymbols s = cmap mathSymTable s) ∧
    (∀ c ∈ reservedChars, mathSymTable c = [c]) ∧
    (∀ s, escapeLatexTextPreservingMath s =
      concatAll ((splitMathParts s).map (fun part =>
        if part = [] then []
        else if isMathSpan part then cmap mathSymTable part
        else cmap escCharTable part))) := by
  refine ⟨escapeLatexText_eq_cmap, by decide, replaceUnicodeMathSymbols_eq_cmap,
    by decide, ?_⟩
  intro s
  unfold escapeLatexTextPreservingMath
  refine congrArg concatAll (List.map_congr_left ?_)
  intro part _
  by_cases h1 : part = []
  · simp [h1]
  · by_cases h2 : isMathSpan part <;>
      simp [h1, h2, escapeLatexText_eq_cmap, replaceUnicodeMathSymbols_eq_cmap]

/-! ## C7: extraction failure conditions -/

/-- C7, counterexample.  The specification says extraction fails only
when every extraction path yields empty output.  For a DOCX whose pandoc
output is the single watermark line `SPECTROPY`, the primary path yields
non-empty text, yet the normalizer strips it to empty and `extractText`
throws — refuting the claim. -/
theorem extractText_empty_claim_counterexample :
    ¬ (∀ env : ExtractEnv,
        isOkE (extractText env (str "docx")) = false → env.pandocOut = []) := by
  intro h
  have := h ⟨str "SPECTROPY", none, []⟩ (by decide)
  simp [str] at this

/-- C7, amended.  `extractText` fails exactly when: for DOCX, the
normalized pandoc output is empty (the DOCX equation sub-path
`extractDocxEquations` is never consulted by `extractFromDocx`); for PDF,
the primary parser throws (a non-empty OCR path does not prevent the
failure, and an all-empty extraction returns the empty string without
failing). -/
theorem extractText_failure_characterization (env : ExtractEnv) :
    (isOkE (extractText env (str "docx")) = true ↔
      normalizeMathText (normalizePandocText env.pandocOut) ≠ []) ∧
    (isOkE (extractText env (str "pdf")) = false ↔ env.pdfParseText = none) := by
  constructor
  · unfold extractText extractFromDocx
    rw [if_pos (by decide)]
    by_cases h : normalizeMathText (normalizePandocText env.pandocOut) = [] <;>
      simp [h, isOkE]
  · unfold extractText extractFromPdf
    rw [if_neg (by decide), if_pos (by decide)]
    rcases hp : env.pdfParseText with _ | t
    · simp [isOkE]
    · by_cases hx : env.pix2texOut ≠ [] <;> simp [hx, isOkE]

/-! ## C8: the display-math sanitizer rewrite -/

/-- C8.  The sanitizer comment (docxCompiler.js:23) and the specification
claim the malformed wrapper `$$ $x$$` is rewritten to `$$ x $$`, but in a
JavaScript replacement string `$$` denotes a literal `$`, so the
replacement `'$$ $1 $$'` produces a single dollar on each side: the code
actually rewrites `$$ $x$$` to `$ x $$`. -/
theorem sanitizeLatexForPandoc_displaymath_eval :
    sanitizeLatexForPandoc (str "$$ $x$$") = str "$ x $$" ∧
    sanitizeLatexForPandoc (str "$$ $x$$") ≠ str "$$ x $$" := by
  decide

/-- Witness for C4 at the concrete reserved character `&`: it is in the
reserved set and passes through the math-span substitution unescaped. -/
theorem escaping_respects_math_spans_witness :
    '&' ∈ reservedChars ∧ mathSymTable '&' = ['&'] :=
  ⟨by decide, escaping_respects_math_spans.2.2.2.1 '&' (by decide)⟩
